import Mathlib

/-!
Verification development for the hw-scraper repository.

Shallow embedding of the parts of the code base that the checked properties
concern: Python strings are modelled as Lean `String`/`List Char`, wall-clock
times as `ℚ`, machine integers as `Int`/`Nat` (Python integers are unbounded,
so no wrap-around modelling is needed), and float arithmetic on small integer
ratios as exact `ℚ` arithmetic.  Stateful classes are modelled by explicit
state records threaded through the operations.  Each definition carries a
comment naming the source function it embeds.
-/

namespace HwScraper

/-! ### Character-list primitives modelling Python `str` operations -/

/-- Does `l` start with `pat`?  Models Python `str.startswith` at one position. -/
def hasPfx : List Char → List Char → Bool
  | [], _ => true
  | _ :: _, [] => false
  | p :: ps, c :: cs => p == c && hasPfx ps cs

/-- Substring containment: models Python `pat in s`. -/
def containsSub (pat : List Char) : List Char → Bool
  | [] => pat.isEmpty
  | c :: cs => hasPfx pat (c :: cs) || containsSub pat cs

/-- Fuel-bounded scan behind `countSub`; every step consumes at least one
character, so fuel equal to the input length never runs out. -/
def countSubAux (pat : List Char) : Nat → List Char → Nat
  | 0, _ => 0
  | _, [] => 0
  | fuel + 1, c :: cs =>
    if hasPfx pat (c :: cs) && !pat.isEmpty then
      1 + countSubAux pat fuel (cs.drop (pat.length - 1))
    else
      countSubAux pat fuel cs

/-- Non-overlapping left-to-right occurrence count: models Python `s.count(pat)`
for non-empty `pat`. -/
def countSub (pat l : List Char) : Nat := countSubAux pat l.length l

/-- Models Python `s.endswith(pat)`. -/
def endsWithB (l pat : List Char) : Bool := hasPfx pat.reverse l.reverse

/-- Split a list at the first occurrence of the character `c`; the second
component is `none` when `c` does not occur.  Models `str.split(c, 1)`. -/
def splitFirst (c : Char) : List Char → List Char × Option (List Char)
  | [] => ([], none)
  | x :: xs =>
    if x == c then ([], some xs)
    else
      let r := splitFirst c xs
      (x :: r.1, r.2)

/-- Split at the first occurrence of a (non-empty) substring `pat`; used to model
non-greedy regex captures such as the noscript-block scan. -/
def splitSub (pat : List Char) : List Char → Option (List Char × List Char)
  | [] => if pat.isEmpty then some ([], []) else none
  | c :: cs =>
    if hasPfx pat (c :: cs) then some ([], (c :: cs).drop pat.length)
    else
      match splitSub pat cs with
      | some r => some (c :: r.1, r.2)
      | none => none

/-- ASCII lowering of a character list; models Python `str.lower` on the ASCII
inputs the claims exercise. -/
def lowerL (l : List Char) : List Char := l.map Char.toLower

/-- Models Python `str.lower` (ASCII inputs). -/
def strLower (s : String) : String := ⟨lowerL s.data⟩

/-- Python `pat in s` on `String`. -/
def sContains (s pat : String) : Bool := containsSub pat.data s.data

/-- Python `s.count(pat)` on `String`. -/
def sCount (s pat : String) : Nat := countSub pat.data s.data

/-- Python `s.endswith(pat)` on `String`. -/
def sEndsWith (s pat : String) : Bool := endsWithB s.data pat.data

/-- Python `s.startswith(pat)` on `String`. -/
def sStartsWith (s pat : String) : Bool := hasPfx pat.data s.data

/-- Python whitespace class used by `str.strip()`. -/
def isPySpace (c : Char) : Bool :=
  c == ' ' || c == '\t' || c == '\n' || c == '\r' || c == '\x0b' || c == '\x0c'

/-- Models Python `str.strip()`. -/
def stripL (l : List Char) : List Char :=
  ((l.dropWhile isPySpace).reverse.dropWhile isPySpace).reverse

/-- Models Python `str.strip()` on `String`. -/
def sStrip (s : String) : String := ⟨stripL s.data⟩

/-- Split on one character, keeping empty pieces (`"a:b".split(c)` shape). -/
def splitOnChar (c : Char) : List Char → List (List Char)
  | [] => [[]]
  | x :: xs =>
    if x == c then [] :: splitOnChar c xs
    else
      match splitOnChar c xs with
      | [] => [[x]]
      | a :: rest => (x :: a) :: rest

/-- Models Python `str.splitlines()` for texts using `\n` / `\r\n` line ends:
split on `\n`, trim one trailing `\r` per line, and drop the final empty piece
produced by a trailing newline. -/
def splitLines (s : String) : List String :=
  let raw := splitOnChar '\n' s.data
  let raw := if raw.getLast? = some [] then raw.dropLast else raw
  raw.map (fun l => ⟨if l.getLast? = some '\r' then l.dropLast else l⟩)

/-- Models Python `s.split(sep, 1)[1]`-style use: the part before the first
colon and, when present, the part after it. -/
def splitColon1 (s : String) : String × Option String :=
  let r := splitFirst ':' s.data
  (⟨r.1⟩, r.2.map (fun l => ⟨l⟩))

/-- Association-list lookup keyed by strings (models Python dict access). -/
def alookup {α : Type} (k : String) : List (String × α) → Option α
  | [] => none
  | e :: rest => if e.1 == k then some e.2 else alookup k rest

/-- Pointwise update of a string-keyed total map (models `d[k] = v` over a
defaultdict-style map). -/
def fupd {α : Type} (f : String → α) (k : String) (v : α) : String → α :=
  fun s => if s = k then v else f s

/-! ### URL parsing

Model of `urllib.parse.urlparse` restricted to the absolute URL shapes the
claims exercise (`scheme://netloc/path?query#fragment`): the fragment is split
at the first `#`, the query at the first `?` of the remainder, the scheme at
the first `:`, and the netloc extends to the first `/` after `://`. -/

structure UrlParts where
  scheme : String
  netloc : String
  path : String
  query : String
  fragment : String
deriving DecidableEq, Repr

/-- `urlparse` on a character list. -/
def parseUrlL (l : List Char) : UrlParts :=
  let h := splitFirst '#' l
  let frag := h.2.getD []
  let q := splitFirst '?' h.1
  let query := q.2.getD []
  let c := splitFirst ':' q.1
  match c.2 with
  | some rest =>
    if hasPfx ['/', '/'] rest then
      let rest2 := rest.drop 2
      let netloc := rest2.takeWhile (fun ch => ch != '/')
      let path := rest2.dropWhile (fun ch => ch != '/')
      ⟨⟨c.1⟩, ⟨netloc⟩, ⟨path⟩, ⟨query⟩, ⟨frag⟩⟩
    else
      ⟨⟨c.1⟩, "", ⟨rest⟩, ⟨query⟩, ⟨frag⟩⟩
  | none => ⟨"", "", ⟨q.1⟩, ⟨query⟩, ⟨frag⟩⟩

/-- `urlparse` on `String`. -/
def parseUrl (s : String) : UrlParts := parseUrlL s.data

/-- `RobotsParser._get_robots_url`: `f"{scheme}://{netloc}/robots.txt"`. -/
def getRobotsUrl (url : String) : String :=
  let p := parseUrl url
  p.scheme ++ "://" ++ p.netloc ++ "/robots.txt"

/-- `urlparse(url).netloc`, as used for the per-domain caches. -/
def getDomain (url : String) : String := (parseUrl url).netloc

/-- `BaseCrawler._normalize_url` (crawler/base_crawler.py:91-104): the whole URL
is lowercased before parsing, the fragment is dropped, the query re-appended
when non-empty, and the final character dropped when the reassembled string
ends in a slash while the parsed path is longer than one character. -/
def normalizeUrl (url : String) : String :=
  let parsed := parseUrl (strLower url)
  let base := parsed.scheme ++ "://" ++ parsed.netloc ++ parsed.path
  let withQuery := if parsed.query != "" then base ++ "?" ++ parsed.query else base
  if endsWithB withQuery.data ['/'] && parsed.path.data.length > 1 then
    ⟨withQuery.data.dropLast⟩
  else withQuery

/-! ### Data model (models.py) -/

/-- models.py `BatchTask` (fields as in the source; timestamps as `ℚ`). -/
structure BatchTask where
  task_id : String
  url : String
  course_name : Option String
  priority : Int
  retry_count : Int
  status : String
  error : Option String
  worker_id : Option String
  created_at : ℚ
  started_at : Option ℚ
  completed_at : Option ℚ
deriving DecidableEq, Repr

/-- models.py `BatchResult` (lines 189-209). -/
structure BatchResult where
  batch_id : String
  total_tasks : Int
  completed_tasks : Int
  failed_tasks : Int
  in_progress_tasks : Int
  total_files_downloaded : Int
  total_bytes_downloaded : Int
  start_time : ℚ
  end_time : Option ℚ
  duration : Option ℚ
  tasks : List BatchTask
  errors : List String
deriving DecidableEq, Repr

/-- models.py `BatchResult.success_rate` (lines 204-209): `0.0` when
`total_tasks == 0`, else `completed_tasks / total_tasks` (Python true
division, exact here in `ℚ`). -/
def BatchResult.success_rate (r : BatchResult) : ℚ :=
  if r.total_tasks = 0 then 0 else (r.completed_tasks : ℚ) / (r.total_tasks : ℚ)

/-- A concrete `BatchResult` with 10 total and 7 completed tasks. -/
def batchResultTen : BatchResult :=
  ⟨"batch_x", 10, 7, 3, 0, 7, 0, 0, none, none, [], []⟩

/-- A concrete `BatchResult` with no tasks. -/
def batchResultZero : BatchResult :=
  ⟨"batch_y", 0, 0, 0, 0, 0, 0, 0, none, none, [], []⟩

/-! ### Priority task queues (concurrency.py 263-343) -/

/-- `TaskQueue.put` (concurrency.py 273-292): linear scan of the backing list,
inserting the new entry immediately before the first queued entry whose
priority is strictly lower, else appending. -/
def tqPut {α : Type} : List (Int × α) → Int → α → List (Int × α)
  | [], p, x => [(p, x)]
  | e :: rest, p, x =>
    if p > e.1 then (p, x) :: e :: rest else e :: tqPut rest p x

/-- Successive `TaskQueue.put` calls from the empty queue. -/
def tqPutAll {α : Type} (items : List (Int × α)) : List (Int × α) :=
  items.foldl (fun q px => tqPut q px.1 px.2) []

/-- `TaskQueue.get` (concurrency.py 294-303): pops the head of the list. -/
def tqGet {α : Type} : List (Int × α) → Option (α × List (Int × α))
  | [] => none
  | e :: rest => some (e.2, rest)

/-- Draining a `TaskQueue` by repeated `get` until empty. -/
def tqDrain {α : Type} : List (Int × α) → List α
  | [] => []
  | e :: rest => e.2 :: tqDrain rest

/-- `AsyncTaskQueue` state (concurrency.py 316-343): the backing
`asyncio.PriorityQueue` pops the least `(-priority, counter)` key, which we
model as a list kept sorted by that lexicographic key (all keys are distinct
because the counter increases strictly). -/
structure AsyncQ (α : Type) where
  counter : Nat
  heap : List (Int × Nat × α)

/-- Insertion into the sorted-list model of `asyncio.PriorityQueue`. -/
def heapPush {α : Type} : List (Int × Nat × α) → (Int × Nat × α) → List (Int × Nat × α)
  | [], e => [e]
  | f :: fs, e =>
    if e.1 < f.1 || (e.1 == f.1 && e.2.1 < f.2.1) then e :: f :: fs
    else f :: heapPush fs e

/-- `AsyncTaskQueue.put` (concurrency.py 324-330): increments the tie-break
counter and enqueues `(-priority, counter, item)`. -/
def atqPut {α : Type} (q : AsyncQ α) (item : α) (priority : Int) : AsyncQ α :=
  let c := q.counter + 1
  ⟨c, heapPush q.heap (-priority, c, item)⟩

/-- Successive `AsyncTaskQueue.put` calls from a fresh queue. -/
def atqPutAll {α : Type} (items : List (Int × α)) : AsyncQ α :=
  items.foldl (fun q px => atqPut q px.2 px.1) ⟨0, []⟩

/-- `AsyncTaskQueue.get` pops the least key, i.e. the head of the sorted list. -/
def atqGet {α : Type} : AsyncQ α → Option (α × AsyncQ α)
  | ⟨_, []⟩ => none
  | ⟨c, e :: rest⟩ => some (e.2.2, ⟨c, rest⟩)

/-- Draining the async queue by repeated `get` until empty. -/
def atqDrainHeap {α : Type} : List (Int × Nat × α) → List α
  | [] => []
  | e :: rest => e.2.2 :: atqDrainHeap rest

/-- The drained order of an `AsyncTaskQueue`. -/
def atqDrain {α : Type} (q : AsyncQ α) : List α := atqDrainHeap q.heap

/-! ### Circuit breakers (concurrency.py 140-231)

`time.time()` calls are modelled by passing the current time explicitly; the
per-service defaultdict maps become total functions with the defaults of the
source (`0` failures, state `"closed"`, last-failure default `0`). -/

/-- concurrency.py `CircuitBreaker` (lines 140-152); states are the Python
strings `"closed"`, `"open"`, `"half_open"`. -/
structure CircuitBreaker where
  failure_threshold : Nat
  timeout : ℚ
  half_open_max : Nat
  failures : String → Nat
  lastFailure : String → ℚ
  state : String → String
  halfOpenCount : String → Nat

/-- `CircuitBreaker.is_open` (lines 154-167): only an `"open"` circuit can
report open; past the timeout it flips to `"half_open"`, zeroes the half-open
counter, and reports closed. -/
def cbIsOpen (cb : CircuitBreaker) (now : ℚ) (service : String) :
    Bool × CircuitBreaker :=
  if cb.state service = "open" then
    if now - cb.lastFailure service > cb.timeout then
      (false,
        { cb with
          state := fupd cb.state service "half_open"
          halfOpenCount := fupd cb.halfOpenCount service 0 })
    else (true, cb)
  else (false, cb)

/-- `CircuitBreaker.record_success` (lines 169-176): counts half-open
successes; at `half_open_max` the circuit closes and failures reset. -/
def cbRecordSuccess (cb : CircuitBreaker) (service : String) : CircuitBreaker :=
  if cb.state service = "half_open" then
    let c := cb.halfOpenCount service + 1
    let cb1 := { cb with halfOpenCount := fupd cb.halfOpenCount service c }
    if c ≥ cb.half_open_max then
      { cb1 with
        state := fupd cb1.state service "closed"
        failures := fupd cb1.failures service 0 }
    else cb1
  else cb

/-- `CircuitBreaker.record_failure` (lines 178-185): increments the failure
count, stamps the failure time, and trips to `"open"` at the threshold. -/
def cbRecordFailure (cb : CircuitBreaker) (now : ℚ) (service : String) :
    CircuitBreaker :=
  let f := cb.failures service + 1
  let cb1 :=
    { cb with
      failures := fupd cb.failures service f
      lastFailure := fupd cb.lastFailure service now }
  if f ≥ cb1.failure_threshold then
    { cb1 with state := fupd cb1.state service "open" }
  else cb1

/-- Folding consecutive `record_failure` calls for one service over a list of
call times. -/
def cbFailSeq (cb : CircuitBreaker) (service : String) (times : List ℚ) :
    CircuitBreaker :=
  times.foldl (fun c t => cbRecordFailure c t service) cb

/-- concurrency.py `AsyncCircuitBreaker` (lines 193-202). -/
structure AsyncCircuitBreaker where
  failure_threshold : Nat
  timeout : ℚ
  failures : String → Nat
  lastFailure : String → ℚ
  state : String → String

/-- `AsyncCircuitBreaker.is_open` (lines 204-215). -/
def acbIsOpen (cb : AsyncCircuitBreaker) (now : ℚ) (service : String) :
    Bool × AsyncCircuitBreaker :=
  if cb.state service = "open" then
    if now - cb.lastFailure service > cb.timeout then
      (false, { cb with state := fupd cb.state service "half_open" })
    else (true, cb)
  else (false, cb)

/-- `AsyncCircuitBreaker.record_success` (lines 217-222): a single success
while half-open closes the circuit and resets failures. -/
def acbRecordSuccess (cb : AsyncCircuitBreaker) (service : String) :
    AsyncCircuitBreaker :=
  if cb.state service = "half_open" then
    { cb with
      state := fupd cb.state service "closed"
      failures := fupd cb.failures service 0 }
  else cb

/-- `AsyncCircuitBreaker.record_failure` (lines 224-231). -/
def acbRecordFailure (cb : AsyncCircuitBreaker) (now : ℚ) (service : String) :
    AsyncCircuitBreaker :=
  let f := cb.failures service + 1
  let cb1 :=
    { cb with
      failures := fupd cb.failures service f
      lastFailure := fupd cb.lastFailure service now }
  if f ≥ cb1.failure_threshold then
    { cb1 with state := fupd cb1.state service "open" }
  else cb1

/-- Folding consecutive async `record_failure` calls for one service. -/
def acbFailSeq (cb : AsyncCircuitBreaker) (service : String) (times : List ℚ) :
    AsyncCircuitBreaker :=
  times.foldl (fun c t => acbRecordFailure c t service) cb

/-- A `CircuitBreaker` with the source defaults (`failure_threshold=5`,
`timeout=60.0`, `half_open_max=1`) and empty per-service maps. -/
def cbInit : CircuitBreaker :=
  ⟨5, 60, 1, fun _ => 0, fun _ => 0, fun _ => "closed", fun _ => 0⟩

/-- An `AsyncCircuitBreaker` with the source defaults. -/
def acbInit : AsyncCircuitBreaker :=
  ⟨5, 60, fun _ => 0, fun _ => 0, fun _ => "closed"⟩

/-! ### Rate limiters (concurrency.py 58-113)

Both `acquire` implementations hold the instance lock for the whole call,
sleep included, so a run of concurrent `acquire` calls is serialised: we model
an execution as a trace of `(key, arrival-time)` events processed in lock
order, where a call's effective start is the later of its arrival time and the
previous call's completion (the lock hand-off), and sleeping advances the
clock.  `AsyncRateLimiter.acquire` records `time.time()` taken *after* the
sleep (line 78); `ThreadSafeRateLimiter.acquire` records the `current`
captured at entry, *before* the sleep (lines 101-107). -/

/-- Per-key last-call map plus the current clock of the serialised execution. -/
structure RlState where
  lastCall : List (String × ℚ)
  clock : ℚ

/-- One `AsyncRateLimiter.acquire(key)` step (concurrency.py 67-78) at entry
time `now`: sleeps the shortfall against `min_interval` and records the
post-sleep time.  Returns the completion time and the new map. -/
def asyncAcquireStep (minInterval : ℚ) (last : List (String × ℚ))
    (key : String) (now : ℚ) : ℚ × List (String × ℚ) :=
  let lastCall := (alookup key last).getD 0
  let elapsed := now - lastCall
  let completion := if elapsed < minInterval then now + (minInterval - elapsed) else now
  (completion, (key, completion) :: last)

/-- One `ThreadSafeRateLimiter.acquire(key)` step (concurrency.py 96-107) at
entry time `now`: sleeps the shortfall but records the pre-sleep entry time
`current`. -/
def threadAcquireStep (minInterval : ℚ) (last : List (String × ℚ))
    (key : String) (now : ℚ) : ℚ × List (String × ℚ) :=
  let lastCall := (alookup key last).getD 0
  let elapsed := now - lastCall
  let completion := if elapsed < minInterval then now + (minInterval - elapsed) else now
  (completion, (key, now) :: last)

/-- Run a trace of `(key, arrival)` events through an acquire step function,
serialised by the instance lock: each call starts at
`max arrival (previous completion)`.  Returns, in order, one
`(key, entry, completion)` record per event. -/
def runRlTrace (step : List (String × ℚ) → String → ℚ → ℚ × List (String × ℚ))
    (st : RlState) : List (String × ℚ) → List (String × ℚ × ℚ)
  | [] => []
  | e :: rest =>
    let entry := max e.2 st.clock
    let r := step st.lastCall e.1 entry
    (e.1, entry, r.1) :: runRlTrace step ⟨r.2, r.1⟩ rest

/-- The async-variant trace semantics with rate `callsPerSecond`
(`min_interval = 1 / calls_per_second`, concurrency.py 63). -/
def asyncRlTrace (callsPerSecond : ℚ) (events : List (String × ℚ)) :
    List (String × ℚ × ℚ) :=
  runRlTrace (asyncAcquireStep (1 / callsPerSecond)) ⟨[], 0⟩ events

/-- The thread-variant trace semantics. -/
def threadRlTrace (callsPerSecond : ℚ) (events : List (String × ℚ)) :
    List (String × ℚ × ℚ) :=
  runRlTrace (threadAcquireStep (1 / callsPerSecond)) ⟨[], 0⟩ events

/-! ### JavaScript-dependency detector (scraper/js_renderer.py 12-153)

The lxml body-text extraction (`tree.text_content()`, line 129-130) is a
third-party boundary; its output is passed in as a separate `bodyText`
argument.  All other checks are plain substring tests on the raw HTML. -/

/-- js_renderer.py `JS_FRAMEWORKS` (lines 16-27), in declaration order. -/
def JS_FRAMEWORKS : List (String × List String) :=
  [("react", ["react", "ReactDOM", "__REACT_"]),
   ("angular", ["angular", "ng-", "ng-app"]),
   ("vue", ["Vue", "v-", "__VUE__"]),
   ("ember", ["Ember", "ember-"]),
   ("backbone", ["Backbone"]),
   ("jquery", ["jQuery", "$"]),
   ("nextjs", ["__NEXT_", "_next"]),
   ("nuxtjs", ["__NUXT__"]),
   ("gatsby", ["___gatsby"]),
   ("svelte", ["__svelte"])]

/-- js_renderer.py `JS_INDICATORS` (lines 30-44). -/
def JS_INDICATORS : List String :=
  ["<noscript>", "data-react", "data-ng-", "v-bind", "ng-controller",
   "id=\"root\"", "id=\"app\"", "__INITIAL_STATE__", "__PRELOADED_STATE__",
   "window.__", "require.js", "webpack", "bundle.js"]

/-- `JSDetector._calculate_js_score` (js_renderer.py 96-134): sum of the six
contributions, capped at 100. -/
def calculateJsScore (htmlContent bodyText : String) : Nat :=
  let scriptScore := min (sCount htmlContent "<script" * 5) 30
  let inlineScore :=
    if sContains htmlContent "onclick=" || sContains htmlContent "onload=" then 10 else 0
  let ajaxScore :=
    if sContains htmlContent "XMLHttpRequest" || sContains htmlContent "fetch(" then 20 else 0
  let jsonScore :=
    if sContains htmlContent "__INITIAL_DATA__" || sContains htmlContent "window.__" then 15 else 0
  let spaScore :=
    if ["#root", "#app", "id=\"root\"", "id=\"app\""].any
        (fun spa => sContains htmlContent spa) then 20 else 0
  let minimalScore := if (sStrip bodyText).length < 100 then 15 else 0
  min (scriptScore + inlineScore + ajaxScore + jsonScore + spaScore + minimalScore) 100

/-- Case-insensitive prefix test (models `re.IGNORECASE` tag matching). -/
def hasPfxCI (pat l : List Char) : Bool := hasPfx (lowerL pat) (lowerL (l.take pat.length))

/-- Split at the first case-insensitive occurrence of `pat`. -/
def splitSubCI (pat : List Char) : List Char → Option (List Char × List Char)
  | [] => if pat.isEmpty then some ([], []) else none
  | c :: cs =>
    if hasPfxCI pat (c :: cs) then some ([], (c :: cs).drop pat.length)
    else
      match splitSubCI pat cs with
      | some r => some (c :: r.1, r.2)
      | none => none

/-- Fuel-bounded scan behind `noscriptBlocks`; each successful step strictly
shrinks the remaining input (both patterns are non-empty), so fuel equal to
the input length never runs out. -/
def noscriptBlocksAux : Nat → List Char → List (List Char)
  | 0, _ => []
  | fuel + 1, l =>
    match splitSubCI "<noscript>".data l with
    | none => []
    | some r =>
      match splitSubCI "</noscript>".data r.2 with
      | none => []
      | some r2 => r2.1 :: noscriptBlocksAux fuel r2.2

/-- The captures of the non-greedy case-insensitive regex
`<noscript>(.*?)</noscript>` (js_renderer.py 146-147). -/
def noscriptBlocks (l : List Char) : List (List Char) :=
  noscriptBlocksAux l.length l

/-- `JSDetector._check_noscript_content` (js_renderer.py 136-153). -/
def checkNoscriptContent (htmlContent : String) : Bool :=
  (noscriptBlocks htmlContent.data).any
    (fun m => containsSub "JavaScript".data m || containsSub "enable".data m)

/-- Result record of `JSDetector.detect_javascript`. -/
structure JsDetection where
  uses_javascript : Bool
  requires_js_rendering : Bool
  frameworks : List String
  indicators : List String
  dynamic_content_score : Nat
deriving DecidableEq, Repr

/-- `JSDetector.detect_javascript` (js_renderer.py 50-94). -/
def detectJavascript (htmlContent bodyText : String) : JsDetection :=
  let frameworks :=
    (JS_FRAMEWORKS.filter
      (fun fp => fp.2.any (fun pat => sContains htmlContent pat))).map (fun fp => fp.1)
  let indicators := JS_INDICATORS.filter (fun ind => sContains htmlContent ind)
  let uses := !frameworks.isEmpty || !indicators.isEmpty
  let score := calculateJsScore htmlContent bodyText
  let requires :=
    if score > 50 then true
    else if !frameworks.isEmpty then true
    else if sContains htmlContent "<noscript>" && checkNoscriptContent htmlContent then true
    else false
  ⟨uses, requires, frameworks, indicators, score⟩

/-! ### File-type detection (parser.py 17-33, 263-303) -/

/-- models.py `FileType`. -/
inductive FileType where
  | lecture_video
  | lecture_slide
  | assignment
  | resource
  | reading
  | syllabus
  | other
deriving DecidableEq, Repr

/-- parser.py `FILE_TYPE_EXTENSIONS` (lines 17-24), in declaration order
(Python dicts iterate in insertion order). -/
def FILE_TYPE_EXTENSIONS : List (FileType × List String) :=
  [(FileType.lecture_video, [".mp4", ".avi", ".mov", ".wmv", ".flv", ".webm", ".m4v"]),
   (FileType.lecture_slide, [".ppt", ".pptx", ".pdf", ".odp"]),
   (FileType.assignment, [".docx", ".doc", ".pdf", ".txt", ".md"]),
   (FileType.resource, [".zip", ".tar", ".gz", ".rar", ".7z"]),
   (FileType.reading, [".pdf", ".epub", ".mobi", ".txt"]),
   (FileType.syllabus, [".pdf", ".docx", ".doc", ".html"])]

/-- Does `l` contain `pat` immediately followed by a decimal digit?  Models a
`re.search` of `pat\d+`. -/
def containsKeyDigit (pat : List Char) : List Char → Bool
  | [] => false
  | c :: cs =>
    (hasPfx pat (c :: cs) &&
      (match (c :: cs).drop pat.length with
       | d :: _ => d.isDigit
       | [] => false)) ||
    containsKeyDigit pat cs

/-- `re.search` of parser.py `COURSE_PATTERNS["lecture"]`
(`lecture|slides?|presentation|week\d+|module\d+`) over an
already-lowercased string. -/
def matchLecturePattern (s : String) : Bool :=
  sContains s "lecture" || sContains s "slide" || sContains s "presentation" ||
  containsKeyDigit "week".data s.data || containsKeyDigit "module".data s.data

/-- `COURSE_PATTERNS["assignment"]`: `assignment|homework|hw|problem|pset|quiz|exam`. -/
def matchAssignmentPattern (s : String) : Bool :=
  ["assignment", "homework", "hw", "problem", "pset", "quiz", "exam"].any
    (fun w => sContains s w)

/-- `COURSE_PATTERNS["resource"]`: `resource|material|download|file|document`. -/
def matchResourcePattern (s : String) : Bool :=
  ["resource", "material", "download", "file", "document"].any (fun w => sContains s w)

/-- `COURSE_PATTERNS["video"]`: `video|recording|stream|media`. -/
def matchVideoPattern (s : String) : Bool :=
  ["video", "recording", "stream", "media"].any (fun w => sContains s w)

/-- `COURSE_PATTERNS["syllabus"]`: `syllabus|schedule|calendar|outline`. -/
def matchSyllabusPattern (s : String) : Bool :=
  ["syllabus", "schedule", "calendar", "outline"].any (fun w => sContains s w)

/-- The extension membership loop of `detect_file_type` (parser.py 269-273):
first table entry, in declaration order, one of whose extensions the combined
lowercased string ends with. -/
def extensionLoop (checkString : String) :
    List (FileType × List String) → Option FileType
  | [] => none
  | e :: rest =>
    if e.2.any (fun ext => sEndsWith checkString ext) then some e.1
    else extensionLoop checkString rest

/-- The `COURSE_PATTERNS` loop of `detect_file_type` (parser.py 276-287), in
dict declaration order (`lecture`, `assignment`, `resource`, `video`,
`syllabus`) with the source's pattern-type-to-FileType translation. -/
def patternLoop (checkString : String) : Option FileType :=
  if matchLecturePattern checkString then some FileType.lecture_slide
  else if matchAssignmentPattern checkString then some FileType.assignment
  else if matchResourcePattern checkString then some FileType.resource
  else if matchVideoPattern checkString then some FileType.lecture_video
  else if matchSyllabusPattern checkString then some FileType.syllabus
  else none

/-- The link-context checks of `detect_file_type` (parser.py 290-301); the
argument is the `text_content()` of the link element, when one was supplied. -/
def contextLoop (context : String) : Option FileType :=
  let c := strLower context
  if sContains c "video" || sContains c "recording" then some FileType.lecture_video
  else if sContains c "slide" || sContains c "presentation" then some FileType.lecture_slide
  else if sContains c "assignment" || sContains c "homework" then some FileType.assignment
  else if sContains c "syllabus" then some FileType.syllabus
  else if sContains c "reading" then some FileType.reading
  else none

/-- `ContentParser.detect_file_type` (parser.py 263-303).  `check_string` is
`(url + (filename or '')).lower()`; the extension table, the URL-pattern
table, and then the link context are consulted in order. -/
def detectFileType (url : String) (filename : Option String)
    (linkText : Option String) : FileType :=
  let checkString := strLower (url ++ filename.getD "")
  match extensionLoop checkString FILE_TYPE_EXTENSIONS with
  | some ft => ft
  | none =>
    match patternLoop checkString with
    | some ft => ft
    | none =>
      match linkText with
      | some t =>
        match contextLoop t with
        | some ft => ft
        | none => FileType.other
      | none => FileType.other

/-! ### Robots parser (crawler/robots_parser.py)

The HTTP session is modelled by a `network` function from URL to response, the
stdlib `urllib.robotparser.RobotFileParser` (a third-party boundary) by an
abstract type `RP` together with its constructor `mkRP` (modelling
`set_url` + `parse`) and its rule evaluator `rpCanFetch`, and Python `float()`
by an abstract `parseFloat`.  The claims proved below hold for every choice of
these parameters. -/

/-- Outcome of `session.get`: an HTTP status with a body, or a raised error. -/
inductive HttpResponse where
  | ok (status : Nat) (text : String)
  | exc (msg : String)

/-- The caches of `RobotsParser.__init__` (robots_parser.py 16-22). -/
structure RobotsState (RP : Type) where
  robots_cache : List (String × RP)
  sitemap_cache : List (String × List String)
  crawl_delays : List (String × ℚ)

/-- One line step of `RobotsParser._parse_extended_directives`
(robots_parser.py 73-112): tracks the current `User-agent` section and
collects `Crawl-delay` and `Sitemap` directives for matching sections. -/
def extendedDirectivesLine {RP : Type} (parseFloat : String → Option ℚ)
    (domain userAgent : String)
    (acc : Option String × RobotsState RP) (rawLine : String) :
    Option String × RobotsState RP :=
  let line := sStrip rawLine
  let currentUA := acc.1
  let st := acc.2
  if line = "" || sStartsWith line "#" then acc
  else if sStartsWith (strLower line) "user-agent:" then
    (some (sStrip ((splitColon1 line).2.getD "")), st)
  else if currentUA.isSome && currentUA ≠ some "*" && currentUA ≠ some userAgent then acc
  else
    let st1 :=
      if sStartsWith (strLower line) "crawl-delay:" then
        match parseFloat (sStrip ((splitColon1 line).2.getD "")) with
        | some d => { st with crawl_delays := (domain, d) :: st.crawl_delays }
        | none => st
      else st
    let st2 :=
      if sStartsWith (strLower line) "sitemap:" then
        let sitemapUrl := sStrip ((splitColon1 line).2.getD "")
        if sStartsWith sitemapUrl "http" then
          { st1 with
            sitemap_cache :=
              match alookup domain st1.sitemap_cache with
              | some existing =>
                (domain, existing ++ [sitemapUrl]) ::
                  (st1.sitemap_cache.filter (fun e => !(e.1 == domain)))
              | none => (domain, [sitemapUrl]) :: st1.sitemap_cache }
        else st1
      else st1
    (currentUA, st2)

/-- `RobotsParser._parse_extended_directives` (robots_parser.py 73-112). -/
def parseExtendedDirectives {RP : Type} (parseFloat : String → Option ℚ)
    (robotsText robotsUrl userAgent : String) (st : RobotsState RP) :
    RobotsState RP :=
  let domain := getDomain robotsUrl
  ((splitLines robotsText).foldl
    (extendedDirectivesLine parseFloat domain userAgent) (none, st)).2

/-- `RobotsParser.fetch_robots` (robots_parser.py 29-71): cache hit returns the
cached parser; a 200 response is parsed, cached, and scanned for extended
directives; a 404, any other status, or a raised error yields `none`. -/
def fetchRobots {RP : Type} (mkRP : String → List String → RP)
    (parseFloat : String → Option ℚ) (network : String → HttpResponse)
    (st : RobotsState RP) (url userAgent : String) :
    Option RP × RobotsState RP :=
  let robotsUrl := getRobotsUrl url
  match alookup robotsUrl st.robots_cache with
  | some rp => (some rp, st)
  | none =>
    match network robotsUrl with
    | HttpResponse.ok status text =>
      if status = 200 then
        let rp := mkRP robotsUrl (splitLines text)
        let st1 := { st with robots_cache := (robotsUrl, rp) :: st.robots_cache }
        let st2 := parseExtendedDirectives parseFloat text robotsUrl userAgent st1
        (some rp, st2)
      else (none, st)
    | HttpResponse.exc _ => (none, st)

/-- `RobotsParser.can_fetch` (robots_parser.py 114-138): a missing parser
(no robots.txt) means everything is allowed. -/
def canFetch {RP : Type} (mkRP : String → List String → RP)
    (rpCanFetch : RP → String → String → Bool)
    (parseFloat : String → Option ℚ) (network : String → HttpResponse)
    (st : RobotsState RP) (url userAgent : String) :
    Bool × RobotsState RP :=
  let robotsUrl := getRobotsUrl url
  match alookup robotsUrl st.robots_cache with
  | some rp => (rpCanFetch rp userAgent url, st)
  | none =>
    let r := fetchRobots mkRP parseFloat network st url userAgent
    match r.1 with
    | none => (true, r.2)
    | some rp => (rpCanFetch rp userAgent url, r.2)

/-- `RobotsParser.get_sitemaps` (robots_parser.py 153-169): fetches robots.txt
when the domain is not in the sitemap cache, then returns the cached list or
the empty list. -/
def getSitemaps {RP : Type} (mkRP : String → List String → RP)
    (parseFloat : String → Option ℚ) (network : String → HttpResponse)
    (st : RobotsState RP) (url : String) : List String × RobotsState RP :=
  let domain := getDomain url
  match alookup domain st.sitemap_cache with
  | some sitemaps => (sitemaps, st)
  | none =>
    let st1 := (fetchRobots mkRP parseFloat network st url "*").2
    ((alookup domain st1.sitemap_cache).getD [], st1)

/-! ### Batch-processor checkpointing (batch_processor.py 67-113, 281-310)

The filesystem is modelled as an association list from checkpoint-file path to
parsed checkpoint JSON.  `process_courses` always calls
`generate_worker_id("batch")` for a fresh batch id (line 71), so the batch id
of a run is a parameter of the model, with freshness expressed as an
inequality hypothesis where needed. -/

/-- The checkpoint JSON object (spec §6): batch id, ISO start stamp, completed
URLs in completion order. -/
structure CheckpointData where
  batch_id : String
  started_at : String
  completed_tasks : List String
deriving DecidableEq, Repr

/-- The checkpoint path of `BatchProcessor._setup_checkpoint`
(batch_processor.py 283-286): `{output_dir}/.checkpoints/{batch_id}.json`. -/
def checkpointPath (outputDir batchId : String) : String :=
  outputDir ++ "/.checkpoints/" ++ batchId ++ ".json"

/-- `BatchProcessor._setup_checkpoint` (batch_processor.py 281-297): loads the
file at the run's own checkpoint path when it exists, else starts fresh with
an empty `completed_tasks` list. -/
def setupCheckpoint (fs : List (String × CheckpointData))
    (batchId outputDir nowIso : String) : CheckpointData :=
  match alookup (checkpointPath outputDir batchId) fs with
  | some data => data
  | none => ⟨batchId, nowIso, []⟩

/-- `BatchProcessor._filter_completed_urls` (batch_processor.py 299-302). -/
def filterCompletedUrls (data : CheckpointData) (urls : List String) :
    List String :=
  urls.filter (fun url => !(data.completed_tasks.contains url))

/-- The URL list that `process_courses` (batch_processor.py 86-89) submits
when checkpointing is enabled: the input list filtered against the checkpoint
data loaded for this run's fresh batch id. -/
def submittedUrls (fs : List (String × CheckpointData))
    (batchId outputDir nowIso : String) (urls : List String) : List String :=
  filterCompletedUrls (setupCheckpoint fs batchId outputDir nowIso) urls

/-- `BatchProcessor._save_checkpoint` (batch_processor.py 304-310): on a
completed task, appends the URL to `completed_tasks` and rewrites the
checkpoint file in full. -/
def saveCheckpoint (fs : List (String × CheckpointData))
    (checkpointFile : String) (data : CheckpointData) (taskUrl taskStatus : String) :
    List (String × CheckpointData) × CheckpointData :=
  if taskStatus = "completed" then
    let data1 := { data with completed_tasks := data.completed_tasks ++ [taskUrl] }
    ((checkpointFile, data1) :: fs.filter (fun e => !(e.1 == checkpointFile)), data1)
  else (fs, data)

/-! ### Download manager retry (downloader.py 49-135, 229-251)

`download_file` wraps its whole network/file body in `try/except Exception`
(downloader.py 68-134): a failed fetch produces a `DownloadResult` with
`success=False` and the error message, and no exception escapes.  One call's
network outcome is modelled by `FetchOutcome`. -/

/-- Network outcome of one `download_file` attempt. -/
inductive FetchOutcome where
  | ok (bytes : Nat)
  | err (msg : String)
deriving DecidableEq, Repr

/-- The fields of `DownloadResult` that the retry logic observes. -/
structure DownloadResult where
  success : Bool
  error : Option String
  bytes_downloaded : Option Nat
deriving DecidableEq, Repr

/-- `DownloadManager.download_file` (downloader.py 49-135) restricted to the
retry-relevant behaviour: a successful fetch yields a successful result; any
exception inside the body is caught (lines 129-134) and recorded as
`result.error`, so the function never raises on a failed download. -/
def downloadFile (outcome : FetchOutcome) : DownloadResult :=
  match outcome with
  | FetchOutcome.ok bytes => ⟨true, none, some bytes⟩
  | FetchOutcome.err msg => ⟨false, some msg, none⟩

/-- Trace of one `_download_with_retry` run: the result it returns, the number
of `download_file` attempts made, and the backoff sleeps performed. -/
structure RetryTrace where
  result : DownloadResult
  attempts : Nat
  sleeps : List ℚ
deriving DecidableEq, Repr

/-- `download_file` as seen by a caller that guards against exceptions:
because the whole body sits inside `try/except Exception` (downloader.py
68-134), the call always returns normally (`Except.ok`); the `Except.error`
case of a raising call does not occur. -/
def downloadFileCall (outcome : FetchOutcome) : Except String DownloadResult :=
  Except.ok (downloadFile outcome)

/-- The `for attempt in range(max_retries)` loop of `_download_with_retry`
(downloader.py 233-240): sleep `retry_delay * 2^attempt` when `attempt > 0`,
call `download_file`, return its result on a normal return, and only on a
raised exception record `last_error` and move to the next attempt. -/
def downloadWithRetryLoop (outcomes : Nat → FetchOutcome) (retryDelay : ℚ)
    (attempt : Nat) (sleepsSoFar : List ℚ) (lastError : Option String) :
    Nat → RetryTrace
  | 0 =>
    -- `range(max_retries)` exhausted: the all-retries-failed result with
    -- `error=str(last_error)` (downloader.py 243-251); `str(None) = "None"`.
    ⟨⟨false, some (lastError.getD "None"), none⟩, attempt, sleepsSoFar⟩
  | remaining + 1 =>
    let sleeps :=
      if attempt > 0 then sleepsSoFar ++ [retryDelay * 2 ^ attempt] else sleepsSoFar
    match downloadFileCall (outcomes attempt) with
    | Except.ok r => ⟨r, attempt + 1, sleeps⟩
    | Except.error e =>
      downloadWithRetryLoop outcomes retryDelay (attempt + 1) sleeps (some e) remaining

/-- `DownloadManager._download_with_retry` (downloader.py 229-251) with
`max_retries` iterations available. -/
def downloadWithRetry (outcomes : Nat → FetchOutcome) (retryDelay : ℚ)
    (maxRetries : Nat) : RetryTrace :=
  downloadWithRetryLoop outcomes retryDelay 0 [] none maxRetries

/-! ### Auxiliary definitions for the statements and witnesses -/

/-- The drain-order contract of the priority queues on `(priority, insertion
index)` pairs: an earlier-drained entry has strictly higher priority, or equal
priority and an earlier insertion index. -/
def queueOrder (a b : Int × Nat) : Prop :=
  b.1 < a.1 ∨ (a.1 = b.1 ∧ a.2 < b.2)

/-- Pair each priority of a list with its insertion index, starting at `k`. -/
def indexedFrom (k : Nat) : List Int → List (Int × Nat)
  | [] => []
  | p :: ps => (p, k) :: indexedFrom (k + 1) ps

/-- The sort key order of the modelled `asyncio.PriorityQueue` entries:
ascending `(-priority, counter)`. -/
def heapKeyOrder {α : Type} (a b : Int × Nat × α) : Prop :=
  a.1 < b.1 ∨ (a.1 = b.1 ∧ a.2.1 < b.2.1)

/-- Concrete HTML input for the JS-scoring witness: seven `<script` openings,
an `onclick=` handler, a `<div id="root">`, and none of the AJAX or
initial-state markers. -/
def js8Html : String :=
  "<html><body onclick=\"go()\"><div id=\"root\"></div>" ++
  "<script src=\"a1.js\"></script><script src=\"a2.js\"></script>" ++
  "<script src=\"a3.js\"></script><script src=\"a4.js\"></script>" ++
  "<script src=\"a5.js\"></script><script src=\"a6.js\"></script>" ++
  "<script src=\"a7.js\"></script><p>course page</p></body></html>"

/-- Concrete body text of at least 100 characters for the JS-scoring witness. -/
def js8Body : String :=
  "This course page lists the weekly readings and also the problem sets " ++
  "posted for each meeting of the seminar."

/-- A network on which the robots.txt of host `h.edu` answers 404 and every
other fetch raises. -/
def robotsNet404 : String → HttpResponse :=
  fun u =>
    if u = "http://h.edu/robots.txt" then HttpResponse.ok 404 ""
    else HttpResponse.exc "unreachable"

/-- A fresh `RobotsParser` state with empty caches. -/
def robotsStEmpty : RobotsState Unit := ⟨[], [], []⟩

/-- The checkpoint filesystem durably recorded by an interrupted first
`process_courses` run under batch id `batch_a`: two completions saved by
`_save_checkpoint` before the interruption. -/
def checkpointRun1 : List (String × CheckpointData) :=
  let outputDir := "./downloads"
  let batchId := "batch_a"
  let file := checkpointPath outputDir batchId
  let d0 := setupCheckpoint [] batchId outputDir "2026-01-01T00:00:00"
  let r1 := saveCheckpoint [] file d0 "http://u1" "completed"
  let r2 := saveCheckpoint r1.1 file r1.2 "http://u2" "completed"
  r2.1

/-! ## Theorems -/

/-- C9: for every `BatchResult`, `success_rate` equals
`completed_tasks / total_tasks` when `total_tasks > 0` and equals `0.0` when
`total_tasks = 0` (no division by zero occurs); in particular `total_tasks=10`
with `completed_tasks=7` yields `0.7`. -/
theorem claim9_batch_success_rate :
    (∀ r : BatchResult,
      (0 < r.total_tasks →
        r.success_rate = (r.completed_tasks : ℚ) / (r.total_tasks : ℚ)) ∧
      (r.total_tasks = 0 → r.success_rate = 0)) ∧
    batchResultTen.success_rate = 7 / 10 ∧
    batchResultZero.success_rate = 0 := by
  refine ⟨fun r => ⟨fun h => ?_, fun h => ?_⟩, ?_, ?_⟩
  · rw [BatchResult.success_rate, if_neg (by omega)]
  · rw [BatchResult.success_rate, if_pos h]
  · norm_num [BatchResult.success_rate, batchResultTen]
  · norm_num [BatchResult.success_rate, batchResultZero]

/-- Witness for C9: the 10-task, 7-completion instance satisfies the
hypothesis `0 < total_tasks` and reports rate `0.7`. -/
theorem claim9_batch_success_rate_witness :
    0 < batchResultTen.total_tasks ∧ batchResultTen.success_rate = 7 / 10 := by
  refine ⟨by norm_num [batchResultTen], ?_⟩
  have h := (claim9_batch_success_rate.1 batchResultTen).1
      (by norm_num [batchResultTen])
  rw [h]
  norm_num [batchResultTen]

/-- C2 evaluation: whatever the per-attempt network outcomes, with any
positive `max_retries` the retry wrapper returns the first `download_file`
result after exactly one attempt and performs no backoff sleep, because
`download_file` catches its own exceptions; in particular a download failing
with `connection refused` under `max_retries = 3` is returned unsuccessfully
after a single attempt instead of being retried. -/
theorem claim2_download_retry_single_attempt :
    (∀ (outcomes : Nat → FetchOutcome) (retryDelay : ℚ) (n : Nat),
      downloadWithRetry outcomes retryDelay (n + 1) =
        ⟨downloadFile (outcomes 0), 1, []⟩) ∧
    downloadWithRetry (fun _ => FetchOutcome.err "connection refused") 1 3 =
      ⟨⟨false, some "connection refused", none⟩, 1, []⟩ := by
  constructor
  · intro outcomes retryDelay n
    rfl
  · rfl

/-- C1 evaluation: the checkpoint durably recorded by a first run under batch
id `batch_a` holds the two completed URLs, yet a re-invocation — which always
runs under a fresh batch id (`batch_b`) — submits all three URLs again;
only a run reusing the recorded batch id would submit the single
remaining URL. -/
theorem claim1_checkpoint_fresh_id_resubmits :
    alookup (checkpointPath "./downloads" "batch_a") checkpointRun1 =
      some ⟨"batch_a", "2026-01-01T00:00:00", ["http://u1", "http://u2"]⟩ ∧
    submittedUrls checkpointRun1 "batch_b" "./downloads" "2026-01-02T00:00:00"
        ["http://u1", "http://u2", "http://u3"] =
      ["http://u1", "http://u2", "http://u3"] ∧
    submittedUrls checkpointRun1 "batch_a" "./downloads" "2026-01-02T00:00:00"
        ["http://u1", "http://u2", "http://u3"] = ["http://u3"] :=
  ⟨rfl, rfl, rfl⟩

/-- C7: when the host's robots.txt is not cached and its fetch returns 404,
`can_fetch` answers true for every URL of that host and every user agent, and
`get_sitemaps` returns the empty list — for every choice of the abstract
robot-rule evaluator, float parser, and residual state. -/
theorem claim7_robots_absent_allow_all :
    ∀ (RP : Type) (mkRP : String → List String → RP)
      (rpCF : RP → String → String → Bool) (parseFloat : String → Option ℚ)
      (network : String → HttpResponse) (st : RobotsState RP)
      (url url2 agent body : String),
    network (getRobotsUrl url) = HttpResponse.ok 404 body →
    alookup (getRobotsUrl url) st.robots_cache = none →
    alookup (getDomain url) st.sitemap_cache = none →
    getRobotsUrl url2 = getRobotsUrl url →
    (canFetch mkRP rpCF parseFloat network st url2 agent).1 = true ∧
    (getSitemaps mkRP parseFloat network st url).1 = [] := by
  intro RP mkRP rpCF parseFloat network st url url2 agent body hnet hcache hsm hsame
  constructor
  · simp [canFetch, fetchRobots, hsame, hcache, hnet]
  · simp [getSitemaps, fetchRobots, hsm, hcache, hnet]

/-- Witness for C7: on a host whose robots.txt fetch concretely returns 404,
with empty caches, a rule evaluator that would deny everything, and a float
parser that never parses, `can_fetch` still allows an arbitrary URL of the
host for an arbitrary agent and `get_sitemaps` is empty. -/
theorem claim7_robots_absent_witness :
    robotsNet404 (getRobotsUrl "http://h.edu/a") = HttpResponse.ok 404 "" ∧
    alookup (getRobotsUrl "http://h.edu/a") robotsStEmpty.robots_cache = none ∧
    alookup (getDomain "http://h.edu/a") robotsStEmpty.sitemap_cache = none ∧
    getRobotsUrl "http://h.edu/b?x=1" = getRobotsUrl "http://h.edu/a" ∧
    (canFetch (fun _ _ => ()) (fun _ _ _ => false) (fun _ => none) robotsNet404
        robotsStEmpty "http://h.edu/b?x=1" "anybot").1 = true ∧
    (getSitemaps (fun _ _ => ()) (fun _ => none) robotsNet404 robotsStEmpty
        "http://h.edu/a").1 = [] := by
  have h := claim7_robots_absent_allow_all Unit (fun _ _ => ()) (fun _ _ _ => false)
      (fun _ => none) robotsNet404 robotsStEmpty "http://h.edu/a"
      "http://h.edu/b?x=1" "anybot" "" rfl rfl rfl rfl
  exact ⟨rfl, rfl, rfl, rfl, h.1, h.2⟩

/-- C8: any HTML document with exactly 7 `<script` openings, an `onclick=`
handler, and an `id="root"` container, with no AJAX indicators
(`XMLHttpRequest`, `fetch(`), no embedded initial-state globals
(`__INITIAL_DATA__`, `window.__`), and a stripped body text of at least 100
characters scores `min(7*5, 30) + 10 + 20 = 60`, and 60 > 50 makes
`detect_javascript` report `requires_js_rendering = true`. -/
theorem claim8_js_dynamic_score :
    ∀ (htmlContent bodyText : String),
    sCount htmlContent "<script" = 7 →
    sContains htmlContent "onclick=" = true →
    sContains htmlContent "id=\"root\"" = true →
    sContains htmlContent "XMLHttpRequest" = false →
    sContains htmlContent "fetch(" = false →
    sContains htmlContent "__INITIAL_DATA__" = false →
    sContains htmlContent "window.__" = false →
    100 ≤ (sStrip bodyText).length →
    calculateJsScore htmlContent bodyText = 60 ∧
    (detectJavascript htmlContent bodyText).requires_js_rendering = true := by
  intro html body h1 h2 h3 h4 h5 h6 h7 h8
  have hscore : calculateJsScore html body = 60 := by
    unfold calculateJsScore
    rw [h1, h2, h4, h5, h6, h7]
    simp only [List.any_cons, List.any_nil, h3, Bool.true_or, Bool.or_true,
      Bool.false_or, Bool.or_false, if_true, if_false, Bool.or_self]
    have hmin : ¬((sStrip body).length < 100) := by omega
    rw [if_neg hmin]
    norm_num
  refine ⟨hscore, ?_⟩
  unfold detectJavascript
  rw [hscore]
  norm_num

set_option maxRecDepth 8000

/-- Witness for C8: the concrete page `js8Html` with body text `js8Body`
satisfies every hypothesis and is scored 60 / flagged as requiring JS
rendering. -/
theorem claim8_js_dynamic_score_witness :
    sCount js8Html "<script" = 7 ∧
    sContains js8Html "onclick=" = true ∧
    sContains js8Html "id=\"root\"" = true ∧
    sContains js8Html "XMLHttpRequest" = false ∧
    sContains js8Html "fetch(" = false ∧
    sContains js8Html "__INITIAL_DATA__" = false ∧
    sContains js8Html "window.__" = false ∧
    100 ≤ (sStrip js8Body).length ∧
    calculateJsScore js8Html js8Body = 60 ∧
    (detectJavascript js8Html js8Body).requires_js_rendering = true := by
  have h := claim8_js_dynamic_score js8Html js8Body (by decide) (by decide)
      (by decide) (by decide) (by decide) (by decide) (by decide) (by decide)
  exact ⟨by decide, by decide, by decide, by decide, by decide, by decide,
    by decide, by decide, h.1, h.2⟩

/-- `record_failure` leaves the configuration fields unchanged, increments the
service's failure count, and stamps the failure time. -/
theorem cbRecordFailure_preserve (cb : CircuitBreaker) (t : ℚ) (X : String) :
    (cbRecordFailure cb t X).failure_threshold = cb.failure_threshold ∧
    (cbRecordFailure cb t X).timeout = cb.timeout ∧
    (cbRecordFailure cb t X).half_open_max = cb.half_open_max ∧
    (cbRecordFailure cb t X).failures X = cb.failures X + 1 ∧
    (cbRecordFailure cb t X).lastFailure X = t := by
  simp only [cbRecordFailure]
  split <;> simp [fupd]

/-- `record_failure` trips the circuit once the new count reaches the
threshold. -/
theorem cbRecordFailure_trips (cb : CircuitBreaker) (t : ℚ) (X : String)
    (h : cb.failure_threshold ≤ cb.failures X + 1) :
    (cbRecordFailure cb t X).state X = "open" := by
  simp only [cbRecordFailure]
  split_ifs with hc
  · simp [fupd]
  · exact absurd h (by omega)

/-- Field bookkeeping across a run of consecutive `record_failure` calls. -/
theorem cbFailSeq_preserve (X : String) (ts : List ℚ) :
    ∀ cb : CircuitBreaker,
    (cbFailSeq cb X ts).failure_threshold = cb.failure_threshold ∧
    (cbFailSeq cb X ts).timeout = cb.timeout ∧
    (cbFailSeq cb X ts).half_open_max = cb.half_open_max ∧
    (cbFailSeq cb X ts).failures X = cb.failures X + ts.length ∧
    (cbFailSeq cb X ts).lastFailure X = ts.getLast?.getD (cb.lastFailure X) := by
  induction ts with
  | nil => intro cb; simp [cbFailSeq]
  | cons t ts ih =>
    intro cb
    have hstep := cbRecordFailure_preserve cb t X
    have h1 := ih (cbRecordFailure cb t X)
    have hfold : cbFailSeq cb X (t :: ts) = cbFailSeq (cbRecordFailure cb t X) X ts := rfl
    rw [hfold]
    refine ⟨?_, ?_, ?_, ?_, ?_⟩
    · rw [h1.1, hstep.1]
    · rw [h1.2.1, hstep.2.1]
    · rw [h1.2.2.1, hstep.2.2.1]
    · rw [h1.2.2.2.1, hstep.2.2.2.1]
      simp only [List.length_cons]
      omega
    · rw [h1.2.2.2.2, hstep.2.2.2.2]
      cases ts with
      | nil => simp
      | cons t2 ts2 =>
        obtain ⟨v, hv⟩ := Option.isSome_iff_exists.mp
          (show (t2 :: ts2).getLast?.isSome by simp [List.getLast?_isSome])
        rw [List.getLast?_cons_cons, hv]
        rfl

/-- A run of at least `failure_threshold - failures` consecutive
`record_failure` calls leaves the circuit `"open"`. -/
theorem cbFailSeq_state_open (X : String) (ts : List ℚ) :
    ∀ cb : CircuitBreaker, ts ≠ [] →
    cb.failure_threshold ≤ cb.failures X + ts.length →
    (cbFailSeq cb X ts).state X = "open" := by
  induction ts with
  | nil => intro cb hne; exact absurd rfl hne
  | cons t ts ih =>
    intro cb _ h
    have hfold : cbFailSeq cb X (t :: ts) = cbFailSeq (cbRecordFailure cb t X) X ts := rfl
    rw [hfold]
    cases ts with
    | nil =>
      show (cbRecordFailure cb t X).state X = "open"
      exact cbRecordFailure_trips cb t X (by simp at h; omega)
    | cons t2 ts2 =>
      have hstep := cbRecordFailure_preserve cb t X
      apply ih (cbRecordFailure cb t X) (by simp)
      rw [hstep.1, hstep.2.2.2.1]
      simp only [List.length_cons] at h ⊢
      omega

/-- `is_open` on an open circuit within the timeout window reports open and
leaves the state untouched. -/
theorem cbIsOpen_eq_true (cb : CircuitBreaker) (now : ℚ) (X : String)
    (hs : cb.state X = "open") (hle : now - cb.lastFailure X ≤ cb.timeout) :
    cbIsOpen cb now X = (true, cb) := by
  unfold cbIsOpen
  rw [if_pos hs, if_neg (by linarith)]

/-- `is_open` on an open circuit past the timeout reports closed and moves the
service to half-open with a zeroed half-open counter. -/
theorem cbIsOpen_halfopen (cb : CircuitBreaker) (now : ℚ) (X : String)
    (hs : cb.state X = "open") (hgt : now - cb.lastFailure X > cb.timeout) :
    cbIsOpen cb now X =
      (false,
        { cb with
          state := fupd cb.state X "half_open"
          halfOpenCount := fupd cb.halfOpenCount X 0 }) := by
  unfold cbIsOpen
  rw [if_pos hs, if_pos hgt]

/-- One `record_success` while half-open with `half_open_max = 1` closes the
circuit and resets the failure count. -/
theorem cbRecordSuccess_closes (cb : CircuitBreaker) (X : String)
    (hs : cb.state X = "half_open") (hc : cb.halfOpenCount X = 0)
    (hm : cb.half_open_max = 1) :
    (cbRecordSuccess cb X).state X = "closed" ∧
    (cbRecordSuccess cb X).failures X = 0 := by
  simp only [cbRecordSuccess]
  rw [if_pos hs]
  split_ifs with hcond
  · simp [fupd]
  · rw [hc, hm] at hcond
    omega

/-- Async-breaker analog of `cbRecordFailure_preserve`. -/
theorem acbRecordFailure_preserve (cb : AsyncCircuitBreaker) (t : ℚ) (X : String) :
    (acbRecordFailure cb t X).failure_threshold = cb.failure_threshold ∧
    (acbRecordFailure cb t X).timeout = cb.timeout ∧
    (acbRecordFailure cb t X).failures X = cb.failures X + 1 ∧
    (acbRecordFailure cb t X).lastFailure X = t := by
  simp only [acbRecordFailure]
  split <;> simp [fupd]

/-- Async-breaker analog of `cbRecordFailure_trips`. -/
theorem acbRecordFailure_trips (cb : AsyncCircuitBreaker) (t : ℚ) (X : String)
    (h : cb.failure_threshold ≤ cb.failures X + 1) :
    (acbRecordFailure cb t X).state X = "open" := by
  simp only [acbRecordFailure]
  split_ifs with hc
  · simp [fupd]
  · exact absurd h (by omega)

/-- Async-breaker analog of `cbFailSeq_preserve`. -/
theorem acbFailSeq_preserve (X : String) (ts : List ℚ) :
    ∀ cb : AsyncCircuitBreaker,
    (acbFailSeq cb X ts).failure_threshold = cb.failure_threshold ∧
    (acbFailSeq cb X ts).timeout = cb.timeout ∧
    (acbFailSeq cb X ts).failures X = cb.failures X + ts.length ∧
    (acbFailSeq cb X ts).lastFailure X = ts.getLast?.getD (cb.lastFailure X) := by
  induction ts with
  | nil => intro cb; simp [acbFailSeq]
  | cons t ts ih =>
    intro cb
    have hstep := acbRecordFailure_preserve cb t X
    have h1 := ih (acbRecordFailure cb t X)
    have hfold : acbFailSeq cb X (t :: ts) = acbFailSeq (acbRecordFailure cb t X) X ts := rfl
    rw [hfold]
    refine ⟨?_, ?_, ?_, ?_⟩
    · rw [h1.1, hstep.1]
    · rw [h1.2.1, hstep.2.1]
    · rw [h1.2.2.1, hstep.2.2.1]
      simp only [List.length_cons]
      omega
    · rw [h1.2.2.2, hstep.2.2.2]
      cases ts with
      | nil => simp
      | cons t2 ts2 =>
        obtain ⟨v, hv⟩ := Option.isSome_iff_exists.mp
          (show (t2 :: ts2).getLast?.isSome by simp [List.getLast?_isSome])
        rw [List.getLast?_cons_cons, hv]
        rfl

/-- Async-breaker analog of `cbFailSeq_state_open`. -/
theorem acbFailSeq_state_open (X : String) (ts : List ℚ) :
    ∀ cb : AsyncCircuitBreaker, ts ≠ [] →
    cb.failure_threshold ≤ cb.failures X + ts.length →
    (acbFailSeq cb X ts).state X = "open" := by
  induction ts with
  | nil => intro cb hne; exact absurd rfl hne
  | cons t ts ih =>
    intro cb _ h
    have hfold : acbFailSeq cb X (t :: ts) = acbFailSeq (acbRecordFailure cb t X) X ts := rfl
    rw [hfold]
    cases ts with
    | nil =>
      show (acbRecordFailure cb t X).state X = "open"
      exact acbRecordFailure_trips cb t X (by simp at h; omega)
    | cons t2 ts2 =>
      have hstep := acbRecordFailure_preserve cb t X
      apply ih (acbRecordFailure cb t X) (by simp)
      rw [hstep.1, hstep.2.2.1]
      simp only [List.length_cons] at h ⊢
      omega

/-- Async-breaker analog of `cbIsOpen_eq_true`. -/
theorem acbIsOpen_eq_true (cb : AsyncCircuitBreaker) (now : ℚ) (X : String)
    (hs : cb.state X = "open") (hle : now - cb.lastFailure X ≤ cb.timeout) :
    acbIsOpen cb now X = (true, cb) := by
  unfold acbIsOpen
  rw [if_pos hs, if_neg (by linarith)]

/-- Async-breaker analog of `cbIsOpen_halfopen`. -/
theorem acbIsOpen_halfopen (cb : AsyncCircuitBreaker) (now : ℚ) (X : String)
    (hs : cb.state X = "open") (hgt : now - cb.lastFailure X > cb.timeout) :
    acbIsOpen cb now X =
      (false, { cb with state := fupd cb.state X "half_open" }) := by
  unfold acbIsOpen
  rw [if_pos hs, if_pos hgt]

/-- A `record_success` while half-open closes the async breaker and resets
its failure count. -/
theorem acbRecordSuccess_closes (cb : AsyncCircuitBreaker) (X : String)
    (hs : cb.state X = "half_open") :
    (acbRecordSuccess cb X).state X = "closed" ∧
    (acbRecordSuccess cb X).failures X = 0 := by
  simp only [acbRecordSuccess]
  rw [if_pos hs]
  simp [fupd]

/-- C5: for both circuit breaker variants with `failure_threshold=5`,
`timeout=60`, `half_open_max=1` and service `X` starting closed: after 5
consecutive `record_failure` calls `is_open(X)` is true while no more than 60
seconds have passed since the last failure; once more than 60 seconds have
elapsed the next `is_open(X)` returns false and moves `X` to half-open; a
subsequent single `record_success(X)` returns `X` to closed with its failure
count reset to 0. -/
theorem claim5_circuit_breaker_state_machine :
    ∀ (cb0 : CircuitBreaker) (acb0 : AsyncCircuitBreaker) (X : String)
      (t1 t2 t3 t4 t5 tc th : ℚ),
    cb0.failure_threshold = 5 → cb0.timeout = 60 → cb0.half_open_max = 1 →
    cb0.state X = "closed" →
    acb0.failure_threshold = 5 → acb0.timeout = 60 → acb0.state X = "closed" →
    tc - t5 ≤ 60 → th - t5 > 60 →
    ((cbIsOpen (cbFailSeq cb0 X [t1, t2, t3, t4, t5]) tc X).1 = true ∧
     (cbIsOpen
        (cbIsOpen (cbFailSeq cb0 X [t1, t2, t3, t4, t5]) tc X).2 th X).1 = false ∧
     ((cbIsOpen
        (cbIsOpen (cbFailSeq cb0 X [t1, t2, t3, t4, t5]) tc X).2 th X).2.state X
       = "half_open") ∧
     (cbRecordSuccess
        (cbIsOpen
          (cbIsOpen (cbFailSeq cb0 X [t1, t2, t3, t4, t5]) tc X).2 th X).2
        X).state X = "closed" ∧
     (cbRecordSuccess
        (cbIsOpen
          (cbIsOpen (cbFailSeq cb0 X [t1, t2, t3, t4, t5]) tc X).2 th X).2
        X).failures X = 0) ∧
    ((acbIsOpen (acbFailSeq acb0 X [t1, t2, t3, t4, t5]) tc X).1 = true ∧
     (acbIsOpen
        (acbIsOpen (acbFailSeq acb0 X [t1, t2, t3, t4, t5]) tc X).2 th X).1 = false ∧
     ((acbIsOpen
        (acbIsOpen (acbFailSeq acb0 X [t1, t2, t3, t4, t5]) tc X).2 th X).2.state X
       = "half_open") ∧
     (acbRecordSuccess
        (acbIsOpen
          (acbIsOpen (acbFailSeq acb0 X [t1, t2, t3, t4, t5]) tc X).2 th X).2
        X).state X = "closed" ∧
     (acbRecordSuccess
        (acbIsOpen
          (acbIsOpen (acbFailSeq acb0 X [t1, t2, t3, t4, t5]) tc X).2 th X).2
        X).failures X = 0) := by
  intro cb0 acb0 X t1 t2 t3 t4 t5 tc th hth htm hhm _ hath hatm _ htc hth60
  constructor
  · have hpres := cbFailSeq_preserve X [t1, t2, t3, t4, t5] cb0
    have hopen : (cbFailSeq cb0 X [t1, t2, t3, t4, t5]).state X = "open" :=
      cbFailSeq_state_open X [t1, t2, t3, t4, t5] cb0 (by simp) (by simp [hth])
    set cb5 := cbFailSeq cb0 X [t1, t2, t3, t4, t5] with hcb5
    have hlast : cb5.lastFailure X = t5 := by
      rw [hpres.2.2.2.2]; rfl
    have htmo : cb5.timeout = 60 := by rw [hpres.2.1, htm]
    have h1 : cbIsOpen cb5 tc X = (true, cb5) :=
      cbIsOpen_eq_true cb5 tc X hopen (by rw [hlast, htmo]; linarith)
    rw [h1]
    have h2 := cbIsOpen_halfopen cb5 th X hopen (by rw [hlast, htmo]; linarith)
    rw [h2]
    have hsh : ({ cb5 with
        state := fupd cb5.state X "half_open"
        halfOpenCount := fupd cb5.halfOpenCount X 0 } : CircuitBreaker).state X
        = "half_open" := by simp [fupd]
    have hcc : ({ cb5 with
        state := fupd cb5.state X "half_open"
        halfOpenCount := fupd cb5.halfOpenCount X 0 } : CircuitBreaker).halfOpenCount X
        = 0 := by simp [fupd]
    have hmm : ({ cb5 with
        state := fupd cb5.state X "half_open"
        halfOpenCount := fupd cb5.halfOpenCount X 0 } : CircuitBreaker).half_open_max
        = 1 := by
      show cb5.half_open_max = 1
      rw [hpres.2.2.1, hhm]
    have hclose := cbRecordSuccess_closes _ X hsh hcc hmm
    exact ⟨rfl, rfl, hsh, hclose.1, hclose.2⟩
  · have hpres := acbFailSeq_preserve X [t1, t2, t3, t4, t5] acb0
    have hopen : (acbFailSeq acb0 X [t1, t2, t3, t4, t5]).state X = "open" :=
      acbFailSeq_state_open X [t1, t2, t3, t4, t5] acb0 (by simp) (by simp [hath])
    set a5 := acbFailSeq acb0 X [t1, t2, t3, t4, t5] with ha5
    have hlast : a5.lastFailure X = t5 := by
      rw [hpres.2.2.2]; rfl
    have htmo : a5.timeout = 60 := by rw [hpres.2.1, hatm]
    have h1 : acbIsOpen a5 tc X = (true, a5) :=
      acbIsOpen_eq_true a5 tc X hopen (by rw [hlast, htmo]; linarith)
    rw [h1]
    have h2 := acbIsOpen_halfopen a5 th X hopen (by rw [hlast, htmo]; linarith)
    rw [h2]
    have hsh : ({ a5 with state := fupd a5.state X "half_open" }
        : AsyncCircuitBreaker).state X = "half_open" := by simp [fupd]
    have hclose := acbRecordSuccess_closes _ X hsh
    exact ⟨rfl, rfl, hsh, hclose.1, hclose.2⟩

/-- Witness for C5: the default-configured breakers, failures at times 0..4,
an open check at time 30, and the half-open transition at time 70. -/
theorem claim5_circuit_breaker_witness :
    ((30 : ℚ) - 4 ≤ 60) ∧ ((70 : ℚ) - 4 > 60) ∧
    (cbIsOpen (cbFailSeq cbInit "X" [0, 1, 2, 3, 4]) 30 "X").1 = true ∧
    (cbIsOpen (cbIsOpen (cbFailSeq cbInit "X" [0, 1, 2, 3, 4]) 30 "X").2 70 "X").1
      = false ∧
    (cbRecordSuccess
      (cbIsOpen (cbIsOpen (cbFailSeq cbInit "X" [0, 1, 2, 3, 4]) 30 "X").2 70 "X").2
      "X").state "X" = "closed" ∧
    (acbIsOpen (acbFailSeq acbInit "X" [0, 1, 2, 3, 4]) 30 "X").1 = true ∧
    (acbRecordSuccess
      (acbIsOpen (acbIsOpen (acbFailSeq acbInit "X" [0, 1, 2, 3, 4]) 30 "X").2 70 "X").2
      "X").failures "X" = 0 := by
  have h := claim5_circuit_breaker_state_machine cbInit acbInit "X" 0 1 2 3 4 30 70
      rfl rfl rfl rfl rfl rfl rfl (by norm_num) (by norm_num)
  exact ⟨by norm_num, by norm_num, h.1.1, h.1.2.1, h.1.2.2.2.1, h.2.1, h.2.2.2.2.2⟩

/-- Membership after a `TaskQueue.put`: the inserted pair, or an old entry. -/
theorem tqPut_mem {α : Type} (q : List (Int × α)) (p : Int) (x : α)
    (e : Int × α) (he : e ∈ tqPut q p x) : e ∈ q ∨ e = (p, x) := by
  induction q with
  | nil =>
    simp only [tqPut, List.mem_singleton] at he
    exact Or.inr he
  | cons f rest ih =>
    simp only [tqPut] at he
    split_ifs at he with hc
    · rcases List.mem_cons.mp he with h | h
      · exact Or.inr h
      · exact Or.inl h
    · rcases List.mem_cons.mp he with h | h
      · exact Or.inl (List.mem_cons.mpr (Or.inl h))
      · rcases ih h with h2 | h2
        · exact Or.inl (List.mem_cons.mpr (Or.inr h2))
        · exact Or.inr h2

/-- In a `queueOrder`-sorted queue every entry's priority is bounded by the
head's. -/
theorem queueOrder_head_bound (f e : Int × Nat) (h : queueOrder f e) :
    e.1 ≤ f.1 := by
  rcases h with h | ⟨h, _⟩
  · exact le_of_lt h
  · exact le_of_eq h.symm

/-- The `TaskQueue.put` linear scan preserves the drain-order invariant when
the inserted entry carries a fresh (largest) insertion index. -/
theorem tqPut_pairwise (q : List (Int × Nat)) (p : Int) (i : Nat)
    (hq : q.Pairwise queueOrder) (hidx : ∀ e ∈ q, e.2 < i) :
    (tqPut q p i).Pairwise queueOrder := by
  induction q with
  | nil => simp [tqPut, queueOrder]
  | cons f rest ih =>
    rw [List.pairwise_cons] at hq
    simp only [tqPut]
    split_ifs with hc
    · rw [List.pairwise_cons]
      refine ⟨?_, List.pairwise_cons.mpr hq⟩
      intro e he
      rcases List.mem_cons.mp he with h | h
      · subst h
        exact Or.inl hc
      · exact Or.inl (lt_of_le_of_lt (queueOrder_head_bound f e (hq.1 e h)) hc)
    · rw [List.pairwise_cons]
      constructor
      · intro e he
        rcases tqPut_mem rest p i e he with h | h
        · exact hq.1 e h
        · subst h
          rcases lt_or_eq_of_le (not_lt.mp hc) with h2 | h2
          · exact Or.inl h2
          · exact Or.inr ⟨h2.symm, hidx f (List.mem_cons_self f rest)⟩
      · exact ih hq.2 (fun e he => hidx e (List.mem_cons.mpr (Or.inr he)))

/-- Folding indexed puts keeps the `TaskQueue` drain-order invariant. -/
theorem tq_fold_pairwise (ps : List Int) :
    ∀ (k : Nat) (q : List (Int × Nat)),
    q.Pairwise queueOrder → (∀ e ∈ q, e.2 < k) →
    ((indexedFrom k ps).foldl (fun acc px => tqPut acc px.1 px.2) q).Pairwise
      queueOrder := by
  induction ps with
  | nil => intro k q hq _; simpa [indexedFrom]
  | cons p ps ih =>
    intro k q hq hidx
    simp only [indexedFrom, List.foldl_cons]
    apply ih (k + 1) (tqPut q p k) (tqPut_pairwise q p k hq hidx)
    intro e he
    rcases tqPut_mem q p k e he with h | h
    · exact Nat.lt_succ_of_lt (hidx e h)
    · rw [h]
      exact Nat.lt_succ_self k

/-- Membership after a `heapPush`. -/
theorem heapPush_mem {α : Type} (h : List (Int × Nat × α)) (e g : Int × Nat × α)
    (hg : g ∈ heapPush h e) : g ∈ h ∨ g = e := by
  induction h with
  | nil =>
    simp only [heapPush, List.mem_singleton] at hg
    exact Or.inr hg
  | cons f fs ih =>
    simp only [heapPush] at hg
    split_ifs at hg with hc
    · rcases List.mem_cons.mp hg with h2 | h2
      · exact Or.inr h2
      · exact Or.inl h2
    · rcases List.mem_cons.mp hg with h2 | h2
      · exact Or.inl (List.mem_cons.mpr (Or.inl h2))
      · rcases ih h2 with h3 | h3
        · exact Or.inl (List.mem_cons.mpr (Or.inr h3))
        · exact Or.inr h3

/-- `heapPush` preserves the sorted-key invariant when the pushed entry
carries a fresh (largest) counter. -/
theorem heapPush_pairwise {α : Type} (h : List (Int × Nat × α))
    (np : Int) (c : Nat) (x : α)
    (hq : h.Pairwise heapKeyOrder) (hcnt : ∀ e ∈ h, e.2.1 < c) :
    (heapPush h (np, c, x)).Pairwise heapKeyOrder := by
  induction h with
  | nil => simp [heapPush, heapKeyOrder]
  | cons f fs ih =>
    rw [List.pairwise_cons] at hq
    simp only [heapPush]
    split_ifs with hc
    · rw [List.pairwise_cons]
      have hkey : heapKeyOrder (np, c, x) f := by
        have hc2 : np < f.1 ∨ (np = f.1 ∧ c < f.2.1) := by simpa using hc
        exact hc2
      refine ⟨?_, List.pairwise_cons.mpr hq⟩
      intro g hg
      rcases List.mem_cons.mp hg with h2 | h2
      · subst h2; exact hkey
      · have hfg := hq.1 g h2
        rcases hkey with hk | ⟨hk1, hk2⟩
        · rcases hfg with hf | ⟨hf1, _⟩
          · exact Or.inl (lt_trans hk hf)
          · exact Or.inl (hf1 ▸ hk)
        · rcases hfg with hf | ⟨hf1, hf2⟩
          · exact Or.inl (hk1 ▸ hf)
          · exact Or.inr ⟨hk1.trans hf1, lt_trans hk2 hf2⟩
    · rw [List.pairwise_cons]
      constructor
      · intro g hg
        rcases heapPush_mem fs (np, c, x) g hg with h2 | h2
        · exact hq.1 g h2
        · subst h2
          have hnotlt : ¬ (np < f.1) := by
            intro hlt
            exact hc (by simp [hlt])
          rcases lt_or_eq_of_le (not_lt.mp hnotlt) with h3 | h3
          · exact Or.inl h3
          · exact Or.inr ⟨h3, hcnt f (List.mem_cons_self f fs)⟩
      · exact ih hq.2 (fun e he => hcnt e (List.mem_cons.mpr (Or.inr he)))

/-- Folding indexed puts keeps the `AsyncTaskQueue` heap sorted by its key
with each entry's counter equal to its insertion index plus one. -/
theorem atq_fold_inv (ps : List Int) :
    ∀ (q : AsyncQ Nat),
    q.heap.Pairwise heapKeyOrder →
    (∀ e ∈ q.heap, e.2.1 ≤ q.counter) →
    (∀ e ∈ q.heap, e.2.1 = e.2.2 + 1) →
    (((indexedFrom q.counter ps).foldl (fun acc px => atqPut acc px.2 px.1)
        q).heap.Pairwise heapKeyOrder) ∧
    (∀ e ∈ ((indexedFrom q.counter ps).foldl (fun acc px => atqPut acc px.2 px.1)
        q).heap, e.2.1 = e.2.2 + 1) := by
  induction ps with
  | nil =>
    intro q hq _ htie
    exact ⟨hq, htie⟩
  | cons p ps ih =>
    intro q hq hcnt htie
    simp only [indexedFrom, List.foldl_cons]
    have hstep : atqPut q q.counter p =
        ⟨q.counter + 1, heapPush q.heap (-p, q.counter + 1, q.counter)⟩ := rfl
    rw [hstep]
    have h1 : (heapPush q.heap (-p, q.counter + 1, q.counter)).Pairwise
        heapKeyOrder :=
      heapPush_pairwise q.heap (-p) (q.counter + 1) q.counter hq
        (fun e he => Nat.lt_succ_of_le (hcnt e he))
    have h2 : ∀ e ∈ heapPush q.heap (-p, q.counter + 1, q.counter),
        e.2.1 ≤ q.counter + 1 := by
      intro e he
      rcases heapPush_mem q.heap (-p, q.counter + 1, q.counter) e he with h | h
      · exact Nat.le_succ_of_le (hcnt e h)
      · rw [h]
    have h3 : ∀ e ∈ heapPush q.heap (-p, q.counter + 1, q.counter),
        e.2.1 = e.2.2 + 1 := by
      intro e he
      rcases heapPush_mem q.heap (-p, q.counter + 1, q.counter) e he with h | h
      · exact htie e h
      · rw [h]
    exact ih ⟨q.counter + 1, heapPush q.heap (-p, q.counter + 1, q.counter)⟩ h1 h2 h3

/-- C6: for both queue variants, items drain in descending numeric priority
with first-in-first-out order among equal priorities — every drained
`(priority, insertion index)` sequence is `queueOrder`-sorted — and the
concrete insertion sequence with priorities `[1, 3, 2, 3]` drains as the two
priority-3 items in insertion order, then the priority-2 item, then the
priority-1 item. -/
theorem claim6_priority_queue_ordering :
    (∀ ps : List Int, (tqPutAll (indexedFrom 0 ps)).Pairwise queueOrder) ∧
    (∀ ps : List Int,
      ((atqPutAll (indexedFrom 0 ps)).heap.map
        (fun e => (-e.1, e.2.2))).Pairwise queueOrder) ∧
    tqDrain (tqPutAll [((1 : Int), "a"), (3, "b"), (2, "c"), (3, "d")]) =
      ["b", "d", "c", "a"] ∧
    atqDrain (atqPutAll [((1 : Int), "a"), (3, "b"), (2, "c"), (3, "d")]) =
      ["b", "d", "c", "a"] := by
  refine ⟨?_, ?_, rfl, rfl⟩
  · intro ps
    exact tq_fold_pairwise ps 0 [] (List.Pairwise.nil) (by simp)
  · intro ps
    have h := atq_fold_inv ps ⟨0, []⟩ (List.Pairwise.nil) (by simp) (by simp)
    rw [List.pairwise_map]
    refine List.Pairwise.imp_of_mem ?_ h.1
    intro a b ha hb hab
    have hta := h.2 a ha
    have htb := h.2 b hb
    rcases hab with h2 | ⟨h2, h3⟩
    · exact Or.inl (by omega)
    · exact Or.inr ⟨by omega, by omega⟩

/-- Counterexample for C3: with `calls_per_second = 1`, in the thread variant
three acquires for key `k` arriving at 10, 10.9, 11 complete at 10, 11, 11.9 —
the last two consecutive completions are only 0.9 s apart, because the
recorded timestamp is the pre-sleep entry time; and in the cooperative variant
a first-ever acquire for key `b` arriving at 10.6 completes only at 11,
delayed by the sleep of key `a`'s acquire holding the instance lock. -/
theorem claim3_rate_limiter_counterexample :
    ((threadRlTrace 1 [("k", 10), ("k", 109 / 10), ("k", 11)]).map
      (fun r => r.2.2) = [10, 11, 119 / 10]) ∧
    ((119 : ℚ) / 10 - 11 < 1 / 1) ∧
    ((asyncRlTrace 1 [("a", 10), ("a", 105 / 10), ("b", 106 / 10)]).map
      (fun r => r.2.2) = [10, 11, 11]) ∧
    ((106 : ℚ) / 10 < 11) := by
  have h1 : threadRlTrace 1 [("k", 10), ("k", 109 / 10), ("k", 11)] =
      [("k", 10, 10), ("k", 109 / 10, 11), ("k", 11, 119 / 10)] := by
    simp only [threadRlTrace, runRlTrace, threadAcquireStep, alookup, max_def]
    norm_num
  have h2 : asyncRlTrace 1 [("a", 10), ("a", 105 / 10), ("b", 106 / 10)] =
      [("a", 10, 10), ("a", 105 / 10, 11), ("b", 11, 11)] := by
    simp only [asyncRlTrace, runRlTrace, asyncAcquireStep, alookup, max_def]
    norm_num [show ("a" : String) ≠ "b" from by decide]
  refine ⟨by rw [h1]; rfl, by norm_num, by rw [h2]; rfl, by norm_num⟩

/-- One cooperative `acquire` step completes no earlier than the key's
recorded timestamp plus the minimum interval. -/
theorem asyncAcquireStep_lb (m : ℚ) (last : List (String × ℚ)) (key : String)
    (now : ℚ) :
    (alookup key last).getD 0 + m ≤ (asyncAcquireStep m last key now).1 := by
  simp only [asyncAcquireStep]
  split_ifs with h
  · linarith
  · linarith

/-- The cooperative step records the completion time for its key. -/
theorem asyncAcquireStep_record (m : ℚ) (last : List (String × ℚ)) (key : String)
    (now : ℚ) :
    (asyncAcquireStep m last key now).2 =
      (key, (asyncAcquireStep m last key now).1) :: last := rfl

/-- Every later record of key `k` in a cooperative trace completes at least
`m` after the timestamp recorded for `k` in the starting state. -/
theorem asyncTrace_completion_lb (m : ℚ) (hm : 0 ≤ m) (k : String) :
    ∀ (events : List (String × ℚ)) (st : RlState) (r : String × ℚ × ℚ),
    r ∈ runRlTrace (asyncAcquireStep m) st events → r.1 = k →
    (alookup k st.lastCall).getD 0 + m ≤ r.2.2 := by
  intro events
  induction events with
  | nil => intro st r hr; simp [runRlTrace] at hr
  | cons e rest ih =>
    intro st r hr hk
    have hcons : runRlTrace (asyncAcquireStep m) st (e :: rest) =
        (e.1, max e.2 st.clock,
          (asyncAcquireStep m st.lastCall e.1 (max e.2 st.clock)).1) ::
        runRlTrace (asyncAcquireStep m)
          ⟨(asyncAcquireStep m st.lastCall e.1 (max e.2 st.clock)).2,
           (asyncAcquireStep m st.lastCall e.1 (max e.2 st.clock)).1⟩ rest := rfl
    rw [hcons] at hr
    rcases List.mem_cons.mp hr with hhead | htail
    · have hk2 : e.1 = k := by rw [hhead] at hk; exact hk
      rw [hhead]
      show (alookup k st.lastCall).getD 0 + m ≤
        (asyncAcquireStep m st.lastCall e.1 (max e.2 st.clock)).1
      rw [← hk2]
      exact asyncAcquireStep_lb m st.lastCall e.1 (max e.2 st.clock)
    · have hIH := ih _ r htail hk
      rw [asyncAcquireStep_record] at hIH
      by_cases he : e.1 = k
      · have hlook : alookup k
            ((e.1, (asyncAcquireStep m st.lastCall e.1 (max e.2 st.clock)).1)
              :: st.lastCall) =
            some (asyncAcquireStep m st.lastCall e.1 (max e.2 st.clock)).1 := by
          simp [alookup, he]
        rw [hlook] at hIH
        have hlb := asyncAcquireStep_lb m st.lastCall e.1 (max e.2 st.clock)
        simp only [Option.getD_some] at hIH
        rw [← he]
        linarith
      · have hlook : alookup k
            ((e.1, (asyncAcquireStep m st.lastCall e.1 (max e.2 st.clock)).1)
              :: st.lastCall) = alookup k st.lastCall := by
          simp [alookup, he]
        rw [hlook] at hIH
        exact hIH

/-- In a cooperative trace, the records of any one key complete at least `m`
apart (pairwise over the same-key subsequence). -/
theorem asyncTrace_pairwise (m : ℚ) (hm : 0 ≤ m) (k : String) :
    ∀ (events : List (String × ℚ)) (st : RlState),
    ((runRlTrace (asyncAcquireStep m) st events).filter
      (fun r => r.1 == k)).Pairwise (fun a b => a.2.2 + m ≤ b.2.2) := by
  intro events
  induction events with
  | nil => intro st; simp [runRlTrace]
  | cons e rest ih =>
    intro st
    have hcons : runRlTrace (asyncAcquireStep m) st (e :: rest) =
        (e.1, max e.2 st.clock,
          (asyncAcquireStep m st.lastCall e.1 (max e.2 st.clock)).1) ::
        runRlTrace (asyncAcquireStep m)
          ⟨(asyncAcquireStep m st.lastCall e.1 (max e.2 st.clock)).2,
           (asyncAcquireStep m st.lastCall e.1 (max e.2 st.clock)).1⟩ rest := rfl
    rw [hcons]
    by_cases he : e.1 = k
    · rw [List.filter_cons_of_pos (by simpa using he)]
      rw [List.pairwise_cons]
      constructor
      · intro r hr
        have hr2 := List.mem_filter.mp hr
        have hk : r.1 = k := by simpa using hr2.2
        have hA := asyncTrace_completion_lb m hm k rest
            ⟨(asyncAcquireStep m st.lastCall e.1 (max e.2 st.clock)).2,
             (asyncAcquireStep m st.lastCall e.1 (max e.2 st.clock)).1⟩
            r hr2.1 hk
        rw [asyncAcquireStep_record] at hA
        have hlook : alookup k
            ((e.1, (asyncAcquireStep m st.lastCall e.1 (max e.2 st.clock)).1)
              :: st.lastCall) =
            some (asyncAcquireStep m st.lastCall e.1 (max e.2 st.clock)).1 := by
          simp [alookup, he]
        rw [hlook] at hA
        simpa using hA
      · exact ih _
    · rw [List.filter_cons_of_neg (by simpa using he)]
      exact ih _

/-- C3 as amended: in the cooperative-task variant, any two acquisitions of
the same key complete at least `1 / calls_per_second` apart, the timestamp
being recorded after the sleep.  (Per the counterexample, the blocking variant
records the pre-sleep entry time so its completions can be closer, and both
variants hold the instance lock during the sleep, so an acquire for a
different key can be delayed by an in-progress acquire.) -/
theorem claim3_rate_limiter_amended :
    ∀ (callsPerSecond : ℚ), 0 < callsPerSecond →
    ∀ (k : String) (events : List (String × ℚ)),
    ((asyncRlTrace callsPerSecond events).filter
      (fun r => r.1 == k)).Pairwise
      (fun a b => a.2.2 + 1 / callsPerSecond ≤ b.2.2) := by
  intro cps hcps k events
  exact asyncTrace_pairwise (1 / cps) (by positivity) k events ⟨[], 0⟩

/-- Witness for C3's amended statement: rate 2 calls per second, two acquires
of key `k`. -/
theorem claim3_rate_limiter_amended_witness :
    (0 : ℚ) < 2 ∧
    ((asyncRlTrace 2 [("k", 7), ("k", 71 / 10)]).filter
      (fun r => r.1 == "k")).Pairwise
      (fun a b => a.2.2 + 1 / 2 ≤ b.2.2) :=
  ⟨by norm_num, claim3_rate_limiter_amended 2 (by norm_num) "k" _⟩

/-- A successful `hasPfx` on a cons pattern pins the head and leaves a
matching tail. -/
theorem hasPfx_cons_true (a : Char) (as l : List Char)
    (h : hasPfx (a :: as) l = true) :
    ∃ t, l = a :: t ∧ hasPfx as t = true := by
  cases l with
  | nil => simp [hasPfx] at h
  | cons c cs =>
    simp only [hasPfx, Bool.and_eq_true, beq_iff_eq] at h
    exact ⟨cs, by rw [h.1], h.2⟩

/-- Counterexample for C10: the URL `http://site.org/notes.pdf?v=1` has a path
ending in `.pdf`, yet `detect_file_type` classifies it as `other`, because the
extension check runs on the full URL string (which ends in the query), not on
the path. -/
theorem claim10_pdf_counterexample :
    endsWithB (parseUrl "http://site.org/notes.pdf?v=1").path.data ".pdf".data
      = true ∧
    detectFileType "http://site.org/notes.pdf?v=1" none none = FileType.other ∧
    detectFileType "http://site.org/notes.pdf?v=1" none none ≠
      FileType.lecture_slide := by
  refine ⟨by decide, by decide, by decide⟩

/-- C10 as amended: for every URL that ends in `.pdf` as a whole string (after
lowercasing), `detect_file_type` with no filename and no link context returns
`lecture_slide`, because the extension table is consulted in declaration order
and `.pdf` first appears under `lecture_slide`, while none of the earlier
extensions can also be a suffix. -/
theorem claim10_pdf_amended :
    ∀ url : String, endsWithB (lowerL url.data) ".pdf".data = true →
    detectFileType url none none = FileType.lecture_slide := by
  intro url h
  unfold endsWithB at h
  rw [show (".pdf".data).reverse = ['f', 'd', 'p', '.'] from rfl] at h
  obtain ⟨t1, hL1, h⟩ := hasPfx_cons_true _ _ _ h
  obtain ⟨t2, hL2, h⟩ := hasPfx_cons_true _ _ _ h
  obtain ⟨t3, hL3, h⟩ := hasPfx_cons_true _ _ _ h
  obtain ⟨t4, hL4, _⟩ := hasPfx_cons_true _ _ _ h
  rw [hL2, hL3, hL4] at hL1
  have hck : (strLower (url ++ "")).data = lowerL url.data := by
    show lowerL (url ++ "").data = lowerL url.data
    have : (url ++ "").data = url.data := by
      cases url with
      | mk d => show d ++ [] = d; simp
    rw [this]
  have hrev : ((strLower (url ++ "")).data).reverse =
      'f' :: 'd' :: 'p' :: '.' :: t4 := by rw [hck, hL1]
  have hmp4 : sEndsWith (strLower (url ++ "")) ".mp4" = false := by
    simp only [sEndsWith, endsWithB, hrev]; rfl
  have havi : sEndsWith (strLower (url ++ "")) ".avi" = false := by
    simp only [sEndsWith, endsWithB, hrev]; rfl
  have hmov : sEndsWith (strLower (url ++ "")) ".mov" = false := by
    simp only [sEndsWith, endsWithB, hrev]; rfl
  have hwmv : sEndsWith (strLower (url ++ "")) ".wmv" = false := by
    simp only [sEndsWith, endsWithB, hrev]; rfl
  have hflv : sEndsWith (strLower (url ++ "")) ".flv" = false := by
    simp only [sEndsWith, endsWithB, hrev]; rfl
  have hwebm : sEndsWith (strLower (url ++ "")) ".webm" = false := by
    simp only [sEndsWith, endsWithB, hrev]; rfl
  have hm4v : sEndsWith (strLower (url ++ "")) ".m4v" = false := by
    simp only [sEndsWith, endsWithB, hrev]; rfl
  have hppt : sEndsWith (strLower (url ++ "")) ".ppt" = false := by
    simp only [sEndsWith, endsWithB, hrev]; rfl
  have hpptx : sEndsWith (strLower (url ++ "")) ".pptx" = false := by
    simp only [sEndsWith, endsWithB, hrev]; rfl
  have hpdf : sEndsWith (strLower (url ++ "")) ".pdf" = true := by
    simp only [sEndsWith, endsWithB, hrev]; rfl
  have hloop : extensionLoop (strLower (url ++ "")) FILE_TYPE_EXTENSIONS =
      some FileType.lecture_slide := by
    simp only [FILE_TYPE_EXTENSIONS, extensionLoop, List.any_cons, List.any_nil,
      hmp4, havi, hmov, hwmv, hflv, hwebm, hm4v, hppt, hpptx, hpdf,
      Bool.or_false, Bool.false_or, Bool.or_true, Bool.true_or]
    norm_num
  unfold detectFileType
  simp only [Option.getD_none]
  rw [hloop]

/-- Witness for C10's amended statement: a concrete URL ending in `.pdf`. -/
theorem claim10_pdf_amended_witness :
    endsWithB (lowerL ("http://site.org/Notes.PDF" : String).data) ".pdf".data
      = true ∧
    detectFileType "http://site.org/Notes.PDF" none none =
      FileType.lecture_slide :=
  ⟨by decide, claim10_pdf_amended "http://site.org/Notes.PDF" (by decide)⟩

/-- `splitFirst` finds nothing when the character is absent. -/
theorem splitFirst_not_mem (c : Char) :
    ∀ l : List Char, c ∉ l → splitFirst c l = (l, none) := by
  intro l
  induction l with
  | nil => intro _; rfl
  | cons x xs ih =>
    intro h
    have hne : x ≠ c := fun he => h (he ▸ List.mem_cons_self x xs)
    simp only [splitFirst, beq_iff_eq, hne, if_false]
    rw [ih (fun hm => h (List.mem_cons.mpr (Or.inr hm)))]

/-- `splitFirst` splits exactly at the first occurrence. -/
theorem splitFirst_append (c : Char) :
    ∀ (a b : List Char), c ∉ a → splitFirst c (a ++ c :: b) = (a, some b) := by
  intro a
  induction a with
  | nil => intro b _; simp [splitFirst]
  | cons x xs ih =>
    intro b h
    have hne : x ≠ c := fun he => h (he ▸ List.mem_cons_self x xs)
    simp only [List.cons_append, splitFirst, beq_iff_eq, hne, if_false,
      List.append_eq]
    rw [ih b (fun hm => h (List.mem_cons.mpr (Or.inr hm)))]

/-- The netloc/path split of the parser: `takeWhile`/`dropWhile` at the first
slash. -/
theorem netlocSplit_append (t : List Char) :
    ∀ h : List Char, '/' ∉ h →
    (h ++ '/' :: t).takeWhile (fun ch => ch != '/') = h ∧
    (h ++ '/' :: t).dropWhile (fun ch => ch != '/') = '/' :: t := by
  intro h
  induction h with
  | nil => intro _; constructor <;> simp [List.takeWhile, List.dropWhile]
  | cons x xs ih =>
    intro hmem
    have hne : x ≠ '/' := fun he => hmem (he ▸ List.mem_cons_self x xs)
    have hx : (x != '/') = true := by simp [hne]
    have ihh := ih (fun hm => hmem (List.mem_cons.mpr (Or.inr hm)))
    constructor
    · simp only [List.cons_append, List.takeWhile, hx, List.append_eq]
      rw [ihh.1]
    · simp only [List.cons_append, List.dropWhile, hx, List.append_eq]
      exact ihh.2

/-- A one-character suffix test is a `getLast?` test. -/
theorem endsWithB_single_iff (l : List Char) (c : Char) :
    endsWithB l [c] = true ↔ l.getLast? = some c := by
  unfold endsWithB
  rw [show ([c].reverse) = [c] from rfl]
  cases hrev : l.reverse with
  | nil =>
    have hl : l = [] := by simpa using congrArg List.reverse hrev
    subst hl
    simp [hasPfx]
  | cons a as =>
    have hlast : l.getLast? = some a := by
      rw [← List.head?_reverse, hrev]
      rfl
    simp only [hasPfx, Bool.and_eq_true, beq_iff_eq, hlast]
    constructor
    · rintro ⟨he, _⟩
      rw [he]
    · intro he
      exact ⟨(Option.some.inj he).symm, trivial⟩

/-- `parseUrlL` on a well-formed assembled absolute URL recovers its
components. -/
theorem parseUrlL_assembled (s h p q f : List Char)
    (hs1 : ':' ∉ s) (hs2 : '#' ∉ s) (hs3 : '?' ∉ s)
    (hh1 : '/' ∉ h) (hh2 : '#' ∉ h) (hh3 : '?' ∉ h)
    (hp1 : '#' ∉ p) (hp2 : '?' ∉ p) (hq1 : '#' ∉ q) :
    parseUrlL (s ++ ':' :: '/' :: '/' :: (h ++ '/' :: (p ++ '?' :: (q ++ '#' :: f)))) =
      ⟨⟨s⟩, ⟨h⟩, ⟨'/' :: p⟩, ⟨q⟩, ⟨f⟩⟩ := by
  have hA : '#' ∉ s ++ ':' :: '/' :: '/' :: (h ++ '/' :: (p ++ '?' :: q)) := by
    intro hx
    simp only [List.mem_append, List.mem_cons] at hx
    rcases hx with hx | hx | hx | hx | hx | hx | hx | hx | hx <;>
      first
        | exact hs2 hx
        | exact hh2 hx
        | exact hp1 hx
        | exact hq1 hx
        | exact absurd hx (by decide)
  have hB : '?' ∉ s ++ ':' :: '/' :: '/' :: (h ++ '/' :: p) := by
    intro hx
    simp only [List.mem_append, List.mem_cons] at hx
    rcases hx with hx | hx | hx | hx | hx | hx | hx <;>
      first
        | exact hs3 hx
        | exact hh3 hx
        | exact hp2 hx
        | exact absurd hx (by decide)
  have e1 : s ++ ':' :: '/' :: '/' :: (h ++ '/' :: (p ++ '?' :: (q ++ '#' :: f))) =
      (s ++ ':' :: '/' :: '/' :: (h ++ '/' :: (p ++ '?' :: q))) ++ '#' :: f := by
    simp [List.append_assoc]
  have s1 : splitFirst '#'
      (s ++ ':' :: '/' :: '/' :: (h ++ '/' :: (p ++ '?' :: (q ++ '#' :: f)))) =
      (s ++ ':' :: '/' :: '/' :: (h ++ '/' :: (p ++ '?' :: q)), some f) := by
    rw [e1]
    exact splitFirst_append '#' _ f hA
  have e2 : s ++ ':' :: '/' :: '/' :: (h ++ '/' :: (p ++ '?' :: q)) =
      (s ++ ':' :: '/' :: '/' :: (h ++ '/' :: p)) ++ '?' :: q := by
    simp [List.append_assoc]
  have s2 : splitFirst '?'
      (s ++ ':' :: '/' :: '/' :: (h ++ '/' :: (p ++ '?' :: q))) =
      (s ++ ':' :: '/' :: '/' :: (h ++ '/' :: p), some q) := by
    rw [e2]
    exact splitFirst_append '?' _ q hB
  have s3 : splitFirst ':' (s ++ ':' :: '/' :: '/' :: (h ++ '/' :: p)) =
      (s, some ('/' :: '/' :: (h ++ '/' :: p))) :=
    splitFirst_append ':' s _ hs1
  have hnp := netlocSplit_append p h hh1
  simp only [parseUrlL, s1, s2, s3, Option.getD_some, hasPfx, beq_self_eq_true,
    Bool.and_self, Bool.and_true, if_true, List.drop, hnp.1, hnp.2]

/-- `parseUrlL` on a well-formed assembled absolute URL without a query. -/
theorem parseUrlL_assembled_noq (s h p f : List Char)
    (hs1 : ':' ∉ s) (hs2 : '#' ∉ s) (hs3 : '?' ∉ s)
    (hh1 : '/' ∉ h) (hh2 : '#' ∉ h) (hh3 : '?' ∉ h)
    (hp1 : '#' ∉ p) (hp2 : '?' ∉ p) :
    parseUrlL (s ++ ':' :: '/' :: '/' :: (h ++ '/' :: (p ++ '#' :: f))) =
      ⟨⟨s⟩, ⟨h⟩, ⟨'/' :: p⟩, ⟨[]⟩, ⟨f⟩⟩ := by
  have hB : '?' ∉ s ++ ':' :: '/' :: '/' :: (h ++ '/' :: p) := by
    intro hx
    simp only [List.mem_append, List.mem_cons] at hx
    rcases hx with hx | hx | hx | hx | hx | hx | hx <;>
      first
        | exact hs3 hx
        | exact hh3 hx
        | exact hp2 hx
        | exact absurd hx (by decide)
  have hA : '#' ∉ s ++ ':' :: '/' :: '/' :: (h ++ '/' :: p) := by
    intro hx
    simp only [List.mem_append, List.mem_cons] at hx
    rcases hx with hx | hx | hx | hx | hx | hx | hx <;>
      first
        | exact hs2 hx
        | exact hh2 hx
        | exact hp1 hx
        | exact absurd hx (by decide)
  have e1 : s ++ ':' :: '/' :: '/' :: (h ++ '/' :: (p ++ '#' :: f)) =
      (s ++ ':' :: '/' :: '/' :: (h ++ '/' :: p)) ++ '#' :: f := by
    simp [List.append_assoc]
  have s1 : splitFirst '#'
      (s ++ ':' :: '/' :: '/' :: (h ++ '/' :: (p ++ '#' :: f))) =
      (s ++ ':' :: '/' :: '/' :: (h ++ '/' :: p), some f) := by
    rw [e1]
    exact splitFirst_append '#' _ f hA
  have s2 : splitFirst '?' (s ++ ':' :: '/' :: '/' :: (h ++ '/' :: p)) =
      (s ++ ':' :: '/' :: '/' :: (h ++ '/' :: p), none) :=
    splitFirst_not_mem '?' _ hB
  have s3 : splitFirst ':' (s ++ ':' :: '/' :: '/' :: (h ++ '/' :: p)) =
      (s, some ('/' :: '/' :: (h ++ '/' :: p))) :=
    splitFirst_append ':' s _ hs1
  have hnp := netlocSplit_append p h hh1
  simp only [parseUrlL, s1, s2, s3, Option.getD_some, Option.getD_none, hasPfx,
    beq_self_eq_true, Bool.and_self, Bool.and_true, if_true, List.drop,
    hnp.1, hnp.2]

/-- Two strings with the same character data are equal. -/
theorem string_eq_of_data (x y : String) (hxy : x.data = y.data) : x = y := by
  cases x
  cases y
  exact congrArg String.mk hxy

/-- The data of a string concatenation. -/
theorem strData_append (x y : String) : (x ++ y).data = x.data ++ y.data := by
  cases x
  cases y
  rfl

/-- A non-empty packed string is `!=` the empty string. -/
theorem strMk_bne_empty (l : List Char) (hl : l ≠ []) :
    ((⟨l⟩ : String) != "") = true := by
  cases l with
  | nil => exact absurd rfl hl
  | cons a as => rfl

/-- C4 as amended: `_normalize_url` lowercases the *entire* URL — scheme,
host, path, and query — and strips the fragment; a single trailing slash is
stripped only when the reassembled URL itself ends in `/` (so a trailing path
slash is kept when a non-empty query follows).  Stated for well-formed
absolute URLs assembled from components. -/
theorem claim4_normalize_amended :
    ∀ (s h p q f : List Char),
    ':' ∉ lowerL s → '#' ∉ lowerL s → '?' ∉ lowerL s →
    '/' ∉ lowerL h → '#' ∉ lowerL h → '?' ∉ lowerL h →
    '#' ∉ lowerL p → '?' ∉ lowerL p → '#' ∉ lowerL q →
    (q ≠ [] → (lowerL q).getLast? ≠ some '/' →
      normalizeUrl
          ⟨s ++ ':' :: '/' :: '/' :: (h ++ '/' :: (p ++ '?' :: (q ++ '#' :: f)))⟩ =
        ⟨lowerL s ++ ':' :: '/' :: '/' ::
          (lowerL h ++ '/' :: (lowerL p ++ '?' :: lowerL q))⟩) ∧
    ((lowerL p).getLast? = some '/' →
      normalizeUrl ⟨s ++ ':' :: '/' :: '/' :: (h ++ '/' :: (p ++ '#' :: f))⟩ =
        ⟨lowerL s ++ ':' :: '/' :: '/' ::
          (lowerL h ++ '/' :: (lowerL p).dropLast)⟩) := by
  intro s h p q f hs1 hs2 hs3 hh1 hh2 hh3 hp1 hp2 hq1
  have hcl : Char.toLower ':' = ':' := rfl
  have hsl : Char.toLower '/' = '/' := rfl
  have hql : Char.toLower '?' = '?' := rfl
  have hhl : Char.toLower '#' = '#' := rfl
  have hsep : ("://" : String).data = [':', '/', '/'] := rfl
  have hqm : ("?" : String).data = ['?'] := rfl
  constructor
  · intro hqne hqlast
    have hlqne : lowerL q ≠ [] := by
      simp only [lowerL, ne_eq, List.map_eq_nil_iff]
      exact hqne
    have hlow : (strLower
        ⟨s ++ ':' :: '/' :: '/' :: (h ++ '/' :: (p ++ '?' :: (q ++ '#' :: f)))⟩).data =
        lowerL s ++ ':' :: '/' :: '/' ::
          (lowerL h ++ '/' :: (lowerL p ++ '?' :: (lowerL q ++ '#' :: lowerL f))) := by
      show lowerL (s ++ ':' :: '/' :: '/' :: (h ++ '/' :: (p ++ '?' :: (q ++ '#' :: f)))) = _
      simp [lowerL, List.map_append, hcl, hsl, hql, hhl]
    have hparse : parseUrl (strLower
        ⟨s ++ ':' :: '/' :: '/' :: (h ++ '/' :: (p ++ '?' :: (q ++ '#' :: f)))⟩) =
        ⟨⟨lowerL s⟩, ⟨lowerL h⟩, ⟨'/' :: lowerL p⟩, ⟨lowerL q⟩, ⟨lowerL f⟩⟩ := by
      show parseUrlL (strLower _).data = _
      rw [hlow]
      exact parseUrlL_assembled _ _ _ _ _ hs1 hs2 hs3 hh1 hh2 hh3 hp1 hp2 hq1
    unfold normalizeUrl
    rw [hparse]
    simp only [strMk_bne_empty (lowerL q) hlqne, if_true]
    have hlastW : ((⟨lowerL s⟩ ++ "://" ++ ⟨lowerL h⟩ ++ ⟨'/' :: lowerL p⟩ ++ "?" ++
        (⟨lowerL q⟩ : String))).data.getLast? = (lowerL q).getLast? := by
      rw [strData_append]
      exact List.getLast?_append_of_ne_nil _ hlqne
    have hendsF : endsWithB ((⟨lowerL s⟩ ++ "://" ++ ⟨lowerL h⟩ ++ ⟨'/' :: lowerL p⟩ ++
        "?" ++ (⟨lowerL q⟩ : String))).data ['/'] = false := by
      rw [Bool.eq_false_iff]
      intro hT
      exact hqlast (hlastW ▸ (endsWithB_single_iff _ '/').mp hT)
    rw [if_neg (by rw [hendsF]; simp)]
    apply string_eq_of_data
    simp only [strData_append, hsep, hqm]
    simp [List.append_assoc]
  · intro hplast
    have hlpne : lowerL p ≠ [] := by
      intro he
      rw [he] at hplast
      cases hplast
    have hlow2 : (strLower
        ⟨s ++ ':' :: '/' :: '/' :: (h ++ '/' :: (p ++ '#' :: f))⟩).data =
        lowerL s ++ ':' :: '/' :: '/' ::
          (lowerL h ++ '/' :: (lowerL p ++ '#' :: lowerL f)) := by
      show lowerL (s ++ ':' :: '/' :: '/' :: (h ++ '/' :: (p ++ '#' :: f))) = _
      simp [lowerL, List.map_append, hcl, hsl, hql, hhl]
    have hparse2 : parseUrl (strLower
        ⟨s ++ ':' :: '/' :: '/' :: (h ++ '/' :: (p ++ '#' :: f))⟩) =
        ⟨⟨lowerL s⟩, ⟨lowerL h⟩, ⟨'/' :: lowerL p⟩, ⟨[]⟩, ⟨lowerL f⟩⟩ := by
      show parseUrlL (strLower _).data = _
      rw [hlow2]
      exact parseUrlL_assembled_noq _ _ _ _ hs1 hs2 hs3 hh1 hh2 hh3 hp1 hp2
    unfold normalizeUrl
    rw [hparse2]
    have hqe : (((⟨[]⟩ : String) != "") : Bool) = false := rfl
    simp only [hqe, if_false, Bool.false_eq_true]
    have hbdata : ((⟨lowerL s⟩ ++ "://" ++ ⟨lowerL h⟩ ++
        (⟨'/' :: lowerL p⟩ : String))).data =
        ((lowerL s ++ [':', '/', '/'] ++ lowerL h) ++ ('/' :: lowerL p)) := by
      simp only [strData_append, hsep]
    have hlastB : ((⟨lowerL s⟩ ++ "://" ++ ⟨lowerL h⟩ ++
        (⟨'/' :: lowerL p⟩ : String))).data.getLast? = some '/' := by
      rw [hbdata]
      rw [List.getLast?_append_of_ne_nil _ (List.cons_ne_nil '/' (lowerL p))]
      obtain ⟨x, xs, hxs⟩ := List.exists_cons_of_ne_nil hlpne
      rw [hxs]
      rw [List.getLast?_cons_cons]
      rw [← hxs]
      exact hplast
    have hendsT : endsWithB ((⟨lowerL s⟩ ++ "://" ++ ⟨lowerL h⟩ ++
        (⟨'/' :: lowerL p⟩ : String))).data ['/'] = true :=
      (endsWithB_single_iff _ '/').mpr hlastB
    have hlen : (lowerL p).length > 0 := List.length_pos.mpr hlpne
    rw [if_pos (by
      rw [hendsT]
      simp only [Bool.true_and, decide_eq_true_eq]
      show ('/' :: lowerL p).length > 1
      simp only [List.length_cons]
      omega)]
    apply string_eq_of_data
    show ((⟨lowerL s⟩ ++ "://" ++ ⟨lowerL h⟩ ++
        (⟨'/' :: lowerL p⟩ : String))).data.dropLast = _
    rw [hbdata]
    have e2 : (lowerL s ++ [':', '/', '/'] ++ lowerL h) ++ ('/' :: lowerL p) =
        ((lowerL s ++ [':', '/', '/'] ++ lowerL h) ++ ['/']) ++ lowerL p := by
      simp
    rw [e2, List.dropLast_append_of_ne_nil _ hlpne]
    simp [List.append_assoc]

/-- Counterexample for C4: normalization lowercases the query string —
`http://a.com/p?Q=1` normalizes to `http://a.com/p?q=1`, so the query is not
preserved unchanged. -/
theorem claim4_normalize_counterexample :
    normalizeUrl "http://a.com/p?Q=1" = "http://a.com/p?q=1" ∧
    (parseUrl (normalizeUrl "http://a.com/p?Q=1")).query = "q=1" ∧
    (parseUrl "http://a.com/p?Q=1").query = "Q=1" ∧
    (parseUrl (normalizeUrl "http://a.com/p?Q=1")).query ≠
      (parseUrl "http://a.com/p?Q=1").query := by
  refine ⟨by decide, by decide, by decide, by decide⟩

/-- Witness for C4's amended statement: one URL with a query (nothing
stripped, everything lowercased) and one query-free URL with a trailing path
slash (slash stripped). -/
theorem claim4_normalize_amended_witness :
    normalizeUrl "HTTP://Ex.COM/Dir/Page?Q=AB#Sec" = "http://ex.com/dir/page?q=ab" ∧
    normalizeUrl "HTTP://Ex.COM/Dir/#Sec" = "http://ex.com/dir" := by
  have h1 := claim4_normalize_amended "HTTP".data "Ex.COM".data "Dir/Page".data
      "Q=AB".data "Sec".data (by decide) (by decide) (by decide) (by decide)
      (by decide) (by decide) (by decide) (by decide) (by decide)
  have h2 := claim4_normalize_amended "HTTP".data "Ex.COM".data "Dir/".data
      "Q=AB".data "Sec".data (by decide) (by decide) (by decide) (by decide)
      (by decide) (by decide) (by decide) (by decide) (by decide)
  constructor
  · have e : ("HTTP://Ex.COM/Dir/Page?Q=AB#Sec" : String) =
        ⟨"HTTP".data ++ ':' :: '/' :: '/' ::
          ("Ex.COM".data ++ '/' ::
            ("Dir/Page".data ++ '?' :: ("Q=AB".data ++ '#' :: "Sec".data)))⟩ := by
      decide
    rw [e, h1.1 (by decide) (by decide)]
    decide
  · have e : ("HTTP://Ex.COM/Dir/#Sec" : String) =
        ⟨"HTTP".data ++ ':' :: '/' :: '/' ::
          ("Ex.COM".data ++ '/' :: ("Dir/".data ++ '#' :: "Sec".data))⟩ := by
      decide
    rw [e, h2.2 (by decide)]
    decide

end HwScraper
